import Mathlib

/-!
Verification development for the sieve_gui repository.

Part 1 shallowly embeds the Sieve script parser
(src/sieve_client/src/parser.rs and src/sieve_client/src/parser/util.rs).
The Rust code uses nom combinators over &str; we model a parser as a
function from a list of characters to an optional (remaining input, value)
pair.  All of nom's failure modes (Error / Failure / Incomplete) are
merged into `none`; the claims under study never distinguish them.
Looping combinators (fold_many0, many0, separated lists) take an explicit
fuel argument; since every loop iteration consumes at least one character,
fuel `input.length + 1` always suffices, and the non-recursive wrappers
supply exactly that.  Running out of fuel in `fold_many0` returns the
accumulator (never reached with the supplied fuel); in the other loops it
returns `none`.

Part 2 embeds the ManageSieve client functions
(src/sieve_client/src/sieve_client.rs) over byte streams modelled as
`List Nat`.  `read_line` consumes bytes up to and including LF and
requires the bytes to be valid UTF-8 (tokio's read_line);
`String::from_utf8_lossy` is modelled faithfully, including Rust's
maximal-subpart replacement policy.  Rust's `str::to_uppercase` is
modelled on the ASCII range only (all protocol keywords compared against
are ASCII).
-/

/-- Characters of a Rust `&str`, the parser input type. -/
abbrev Str := List Char

/-- Shorthand for writing character lists as string literals. -/
def str (s : String) : Str := s.toList

/-- A nom parser over `&str` producing `α`: remaining input and value on success. -/
abbrev P (α : Type) := Str → Option (Str × α)

/-- nom `character::streaming::char`. -/
def pchar (c : Char) : P Char := fun input =>
  match input with
  | [] => none
  | x :: rest => if x = c then some (rest, c) else none

/-- nom `bytes::complete::tag`. -/
def ptag (t : Str) : P Str := fun input =>
  if t.isPrefixOf input then some (input.drop t.length, t) else none

/-- nom `combinator::map`. -/
def pmap (p : P α) (f : α → β) : P β := fun input =>
  match p input with
  | none => none
  | some (rest, a) => some (rest, f a)

/-- nom `combinator::value`. -/
def pvalue (v : β) (p : P α) : P β := fun input =>
  match p input with
  | none => none
  | some (rest, _) => some (rest, v)

/-- nom `branch::alt` for two alternatives (nested for more). -/
def palt (p q : P α) : P α := fun input =>
  match p input with
  | some r => some r
  | none => q input

/-- nom `combinator::opt`. -/
def popt (p : P α) : P (Option α) := fun input =>
  match p input with
  | some (rest, a) => some (rest, some a)
  | none => some (input, none)

/-- nom `combinator::verify`. -/
def pverify (p : P α) (f : α → Bool) : P α := fun input =>
  match p input with
  | none => none
  | some (rest, a) => if f a then some (rest, a) else none

/-- nom `sequence::preceded`. -/
def preceded (p : P α) (q : P β) : P β := fun input =>
  match p input with
  | none => none
  | some (rest, _) => q rest

/-- nom `sequence::delimited`. -/
def delimitedP (p : P α) (q : P β) (r : P γ) : P β := fun input =>
  match p input with
  | none => none
  | some (r1, _) =>
    match q r1 with
    | none => none
    | some (r2, v) =>
      match r r2 with
      | none => none
      | some (r3, _) => some (r3, v)

/-- nom `sequence::pair`. -/
def ppair (p : P α) (q : P β) : P (α × β) := fun input =>
  match p input with
  | none => none
  | some (r1, a) =>
    match q r1 with
    | none => none
    | some (r2, b) => some (r2, (a, b))

/-- nom `bytes::complete::take_while`. -/
def take_whileP (f : Char → Bool) : P Str := fun input =>
  let run := input.takeWhile f
  some (input.drop run.length, run)

/-- nom `bytes::complete::is_not` (fails on an empty match). -/
def is_notP (bad : Str) : P Str := fun input =>
  let run := input.takeWhile (fun c => !bad.contains c)
  if run.isEmpty then none else some (input.drop run.length, run)

/-- nom `multi::fold_many0`, with fuel; each iteration must consume input
(nom errors on a zero-length inner match). -/
def fold_many0 (p : P α) (f : β → α → β) : Nat → β → P β
  | 0, acc => fun input => some (input, acc)
  | fuel + 1, acc => fun input =>
    match p input with
    | none => some (input, acc)
    | some (rest, a) =>
      if rest.length = input.length then none
      else fold_many0 p f fuel (f acc a) rest

/-- nom `multi::many0`, with fuel; the inner parser must consume input. -/
def many0F (p : P α) : Nat → P (List α)
  | 0 => fun _ => none
  | fuel + 1 => fun input =>
    match p input with
    | none => some (input, [])
    | some (rest, x) =>
      if rest.length = input.length then none
      else
        match many0F p fuel rest with
        | none => none
        | some (r, xs) => some (r, x :: xs)

/-- The looping tail of nom's separated lists: separator then element,
returning the position before a trailing separator that is not followed
by an element. -/
def sepTail (sep : P α) (p : P β) : Nat → P (List β)
  | 0 => fun _ => none
  | fuel + 1 => fun input =>
    match sep input with
    | none => some (input, [])
    | some (i1, _) =>
      if i1.length = input.length then none
      else
        match p i1 with
        | none => some (input, [])
        | some (i2, x) =>
          match sepTail sep p fuel i2 with
          | none => none
          | some (r, xs) => some (r, x :: xs)

/-- nom `multi::separated_list0`, with fuel. -/
def separated_list0 (sep : P α) (p : P β) (fuel : Nat) : P (List β) := fun input =>
  match p input with
  | none => some (input, [])
  | some (i1, x) =>
    match sepTail sep p fuel i1 with
    | none => none
    | some (r, xs) => some (r, x :: xs)

/-- nom `multi::separated_list1`, with fuel. -/
def separated_list1 (sep : P α) (p : P β) (fuel : Nat) : P (List β) := fun input =>
  match p input with
  | none => none
  | some (i1, x) =>
    match sepTail sep p fuel i1 with
    | none => none
    | some (r, xs) => some (r, x :: xs)

/-! ### parser/util.rs -/

/-- util.rs `parse_escaped_char`: a backslash followed by a backslash or
a double quote, yielding the escaped character. -/
def parse_escaped_char : P Char :=
  preceded (pchar '\\') (palt (pvalue '\\' (pchar '\\')) (pvalue '"' (pchar '"')))

/-- util.rs `parse_unescaped_sequence`: `is_not("\\\"")` verified non-empty. -/
def parse_unescaped_sequence : P Str :=
  pverify (is_notP (str ("\\\x22"))) (fun s => !s.isEmpty)

/-- util.rs `StringPart`. -/
inductive StringPart where
  | literal (s : Str)
  | escaped (c : Char)
deriving DecidableEq

/-- util.rs `parse_string_part`. -/
def parse_string_part : P StringPart :=
  palt (pmap parse_unescaped_sequence StringPart.literal)
       (pmap parse_escaped_char StringPart.escaped)

/-- The fold step of util.rs `parse_string` (push_str / push). -/
def push_fragment (acc : Str) : StringPart → Str
  | .literal l => acc ++ l
  | .escaped c => acc ++ [c]

/-- util.rs `parse_string`: a double-quoted literal whose body is a fold
of unescaped runs and escaped characters. -/
def parse_string : P Str := fun input =>
  delimitedP (pchar '"')
    (fold_many0 parse_string_part push_fragment (input.length + 1) [])
    (pchar '"') input

/-- The whitespace predicate of util.rs `multispace0` (space, tab, LF, CR). -/
def wsChar : Char → Bool
  | ' ' => true
  | '\t' => true
  | '\n' => true
  | '\r' => true
  | _ => false

/-- util.rs `multispace0`. -/
def multispace0 : P Str := take_whileP wsChar

/-- util.rs `multispace1`. -/
def multispace1 : P Str := pverify multispace0 (fun s => !s.isEmpty)

/-- util.rs `parse_string_array`: `[`, optional whitespace, zero or more
comma-separated string literals, optional whitespace, `]`. -/
def parse_string_array : P (List Str) := fun input =>
  delimitedP (ppair (pchar '[') multispace0)
    (separated_list0 (delimitedP multispace0 (pchar ',') multispace0) parse_string
      (input.length + 1))
    (ppair multispace0 (pchar ']')) input

/-! ### parser.rs -/

/-- parser.rs `parse_require`. -/
def parse_require : P (List Str) := fun input =>
  delimitedP (ppair (ptag (str ("require "))) multispace0) parse_string_array
    (pchar ';') input

/-- parser.rs `StringComparisonType`. -/
inductive StringComparisonType where
  | is_
  | contains
  | matches
  | regex
deriving DecidableEq

/-- parser.rs `parse_string_comparison_type`. -/
def parse_string_comparison_type : P StringComparisonType :=
  palt (pmap (ptag (str (":is"))) (fun _ => StringComparisonType.is_))
    (palt (pmap (ptag (str (":contains"))) (fun _ => StringComparisonType.contains))
      (palt (pmap (ptag (str (":matches"))) (fun _ => StringComparisonType.matches))
        (pmap (ptag (str (":regex"))) (fun _ => StringComparisonType.regex))))

/-- parser.rs `StringCondition`. -/
structure StringCondition where
  comparison_type : StringComparisonType
  source : Str
  value : Str
deriving DecidableEq

/-- parser.rs `parse_string_condition`: comparison type, then (after
mandatory whitespace) a source literal, then a value literal. -/
def parse_string_condition : P StringCondition := fun input =>
  match parse_string_comparison_type input with
  | none => none
  | some (r1, comparison_type) =>
    match preceded multispace1 parse_string r1 with
    | none => none
    | some (r2, header) =>
      match preceded multispace1 parse_string r2 with
      | none => none
      | some (r3, value) =>
        some (r3, { comparison_type := comparison_type, source := header, value := value })

/-- parser.rs `Condition`. -/
inductive Condition where
  | header (c : StringCondition)
  | address (c : StringCondition)
  | allOf (cs : List Condition)
  | anyOf (cs : List Condition)

mutual

/-- parser.rs `parse_condition` (fueled; the fuel only limits the
`allof`/`anyof` nesting depth, which consumes input at every level). -/
def parse_condition : Nat → P Condition
  | 0 => fun _ => none
  | fuel + 1 => fun input =>
    palt (pmap (preceded (ptag (str ("header"))) (preceded multispace1 parse_string_condition))
           Condition.header)
      (palt (pmap (preceded (ptag (str ("address"))) (preceded multispace1 parse_string_condition))
             Condition.address)
        (palt (pmap (preceded (ptag (str ("allof"))) (preceded multispace0 (parse_condition_list fuel)))
               Condition.allOf)
          (pmap (preceded (ptag (str ("anyof"))) (preceded multispace0 (parse_condition_list fuel)))
             Condition.anyOf))) input

/-- parser.rs `parse_condition_list`: `(`, then one or more comma-separated
conditions, then `)` (whitespace-tolerant). -/
def parse_condition_list : Nat → P (List Condition)
  | 0 => fun _ => none
  | fuel + 1 => fun input =>
    delimitedP (preceded (pchar '(') multispace0)
      (separated_list1 (delimitedP multispace0 (pchar ',') multispace0)
        (parse_condition fuel) (fuel + 1))
      (preceded multispace0 (pchar ')')) input

end

/-- parser.rs `Flag` (named `SieveFlag` here: Mathlib already has `Flag`). -/
inductive SieveFlag where
  | seen
  | flagged
  | answered
  | deleted
  | draft
  | recent
  | custom (s : Str)
deriving DecidableEq

/-- The flag-name match inside parser.rs `parse_flags`: the six well-known
backslash-prefixed names map to their variants, anything else to `custom`. -/
def flagOf (s : Str) : SieveFlag :=
  if s = str ("\\Seen") then .seen
  else if s = str ("\\Flagged") then .flagged
  else if s = str ("\\Answered") then .answered
  else if s = str ("\\Deleted") then .deleted
  else if s = str ("\\Draft") then .draft
  else if s = str ("\\Recent") then .recent
  else .custom s

/-- parser.rs `parse_flags`: a single string literal or a string array,
each raw value mapped through the flag-name match. -/
def parse_flags : P (List SieveFlag) := fun input =>
  match palt (pmap parse_string (fun s => [s])) parse_string_array input with
  | none => none
  | some (rest, raw) => some (rest, raw.map flagOf)

/-- parser.rs `flag_command`: command tag, mandatory whitespace, flags,
optional whitespace, `;`. -/
def flag_command (command : Str) : P (List SieveFlag) :=
  delimitedP (ptag command) (delimitedP multispace1 parse_flags multispace0) (pchar ';')

/-- The left-brace character, written numerically. -/
def lbrace : Char := Char.ofNat 123

/-- The right-brace character, written numerically. -/
def rbrace : Char := Char.ofNat 125

mutual

/-- parser.rs `If`. -/
inductive If where
  | mk (condition : Condition) (expressions : List Expression)
      (else_ifs : List (Condition × List Expression)) (else_block : List Expression)

/-- parser.rs `Expression`. -/
inductive Expression where
  | require (exts : List Str)
  | ifE (i : If)
  | fileInto (folder : Str)
  | addFlag (fs : List SieveFlag)
  | removeFlag (fs : List SieveFlag)
  | setFlag (fs : List SieveFlag)
  | discard
  | keep
  | stop

end

/-- Field accessor for `If.condition`. -/
def If.condition : If → Condition
  | .mk c _ _ _ => c

/-- Field accessor for `If.expressions`. -/
def If.expressions : If → List Expression
  | .mk _ e _ _ => e

/-- Field accessor for `If.else_ifs`. -/
def If.else_ifs : If → List (Condition × List Expression)
  | .mk _ _ e _ => e

/-- Field accessor for `If.else_block`. -/
def If.else_block : If → List Expression
  | .mk _ _ _ e => e

mutual

/-- parser.rs `simple_if`: keyword, condition delimited by mandatory
whitespace, then a braced expression list. -/
def simple_if : Str → Nat → P (Condition × List Expression)
  | _, 0 => fun _ => none
  | if_type, fuel + 1 => fun input =>
    ppair
      (preceded (ptag if_type) (delimitedP multispace1 (parse_condition (fuel + 1)) multispace1))
      (delimitedP (pchar lbrace) (parse_expression_list fuel)
        (preceded multispace0 (pchar rbrace))) input

/-- parser.rs `parse_if`: an `if` clause, zero or more `elsif` clauses,
and an optional `else` block defaulting to the empty list. -/
def parse_if : Nat → P If
  | 0 => fun _ => none
  | fuel + 1 => fun input =>
    match simple_if (str ("if")) fuel input with
    | none => none
    | some (rest, (condition, expressions)) =>
      match many0F (preceded multispace0 (simple_if (str ("elsif")) fuel)) (fuel + 1) rest with
      | none => none
      | some (rest1, else_ifs) =>
        match popt (preceded (delimitedP multispace0 (ptag (str ("else"))) multispace0)
            (delimitedP (pchar lbrace) (parse_expression_list fuel)
              (preceded multispace0 (pchar rbrace)))) rest1 with
        | none => none
        | some (rest2, ob) =>
          some (rest2, .mk condition expressions else_ifs (ob.getD []))

/-- parser.rs `parse_expression`: optional leading whitespace, then the
first matching alternative. -/
def parse_expression : Nat → P Expression
  | 0 => fun _ => none
  | fuel + 1 =>
    preceded multispace0
      (palt (pmap parse_require Expression.require)
        (palt (pmap (parse_if fuel) Expression.ifE)
          (palt (pmap (flag_command (str ("addflag"))) Expression.addFlag)
            (palt (pmap (flag_command (str ("removeflag"))) Expression.removeFlag)
              (palt (pmap (flag_command (str ("setflag"))) Expression.setFlag)
                (palt (pvalue Expression.discard (ptag (str ("discard;"))))
                  (palt (pvalue Expression.keep (ptag (str ("keep;"))))
                    (palt (pvalue Expression.stop (ptag (str ("stop;"))))
                      (pmap (delimitedP (ptag (str ("fileinto")))
                          (preceded multispace1 parse_string) (pchar ';'))
                        Expression.fileInto)))))))))

/-- parser.rs `parse_expression_list`: `many0(parse_expression)`. -/
def parse_expression_list : Nat → P (List Expression)
  | 0 => fun _ => none
  | fuel + 1 => fun input => many0F (parse_expression fuel) (fuel + 1) input

end

/-- Whole-script entry point with the canonical fuel. -/
def parse_expression_list_top : P (List Expression) := fun input =>
  parse_expression_list (input.length + 1) input

/-! ### Part 2: sieve_client.rs over byte streams -/

/-- ASCII bytes of a Lean string literal (used for the ASCII command and
keyword constants of sieve_client.rs). -/
def strB (s : String) : List Nat := s.toList.map Char.toNat

/-- Whether a byte/codepoint is Rust `char::is_whitespace` (the
`White_Space` property). -/
def isWSb (c : Nat) : Bool :=
  decide (c = 9 ∨ c = 10 ∨ c = 11 ∨ c = 12 ∨ c = 13 ∨ c = 32 ∨ c = 133 ∨ c = 160 ∨
    c = 5760 ∨ (8192 ≤ c ∧ c ≤ 8202) ∨ c = 8232 ∨ c = 8233 ∨ c = 8239 ∨ c = 8287 ∨
    c = 12288)

/-- Rust `str::trim` on a list of codepoints. -/
def trimB (l : List Nat) : List Nat :=
  ((l.dropWhile isWSb).reverse.dropWhile isWSb).reverse

/-- Rust `str::to_uppercase`, modelled on the ASCII range (all prefixes the
client compares against -- OK / NO / BYE / (WARNINGS) -- are ASCII, and no
non-ASCII character uppercases to an ASCII O, K, N, B, Y or E). -/
def upperB (l : List Nat) : List Nat :=
  l.map (fun c => if 97 ≤ c ∧ c ≤ 122 then c - 32 else c)

/-- Rust `str::starts_with` on codepoint lists. -/
def isPrefixB (pre l : List Nat) : Bool := pre.isPrefixOf l

/-- Split a byte stream at the first LF, keeping the LF in the line part
(`BufReader::read_line` reads up to and including the newline; at EOF it
returns whatever was read). -/
def splitLine : List Nat → List Nat × List Nat
  | [] => ([], [])
  | b :: rest =>
    if b = 10 then ([b], rest)
    else
      let (l, r) := splitLine rest
      (b :: l, r)

/-- Whether a byte is a UTF-8 continuation byte. -/
def utf8Cont (b : Nat) : Bool := decide (128 ≤ b ∧ b ≤ 191)

/-- Valid second byte of a three-byte UTF-8 sequence for lead byte `b`
(excludes overlong encodings and surrogates, as Rust's validator does). -/
def lead3Ok (b c1 : Nat) : Bool :=
  if b = 224 then decide (160 ≤ c1 ∧ c1 ≤ 191)
  else if b = 237 then decide (128 ≤ c1 ∧ c1 ≤ 159)
  else utf8Cont c1

/-- Valid second byte of a four-byte UTF-8 sequence for lead byte `b`. -/
def lead4Ok (b c1 : Nat) : Bool :=
  if b = 240 then decide (144 ≤ c1 ∧ c1 ≤ 191)
  else if b = 244 then decide (128 ≤ c1 ∧ c1 ≤ 143)
  else utf8Cont c1

/-- Strict UTF-8 decoding of a byte list to codepoints; `none` on any
invalid sequence (Rust `String::from_utf8` / tokio `read_line`). -/
def utf8Decode : List Nat → Option (List Nat)
  | [] => some []
  | b :: rest =>
    if b < 128 then (utf8Decode rest).map (fun cps => b :: cps)
    else if 194 ≤ b ∧ b ≤ 223 then
      match rest with
      | [] => none
      | c1 :: r2 =>
        if utf8Cont c1 then
          (utf8Decode r2).map (fun cps => ((b - 192) * 64 + (c1 - 128)) :: cps)
        else none
    else if 224 ≤ b ∧ b ≤ 239 then
      match rest with
      | [] => none
      | c1 :: r2 =>
        if lead3Ok b c1 then
          match r2 with
          | [] => none
          | c2 :: r3 =>
            if utf8Cont c2 then
              (utf8Decode r3).map
                (fun cps => ((b - 224) * 4096 + (c1 - 128) * 64 + (c2 - 128)) :: cps)
            else none
        else none
    else if 240 ≤ b ∧ b ≤ 244 then
      match rest with
      | [] => none
      | c1 :: r2 =>
        if lead4Ok b c1 then
          match r2 with
          | [] => none
          | c2 :: r3 =>
            if utf8Cont c2 then
              match r3 with
              | [] => none
              | c3 :: r4 =>
                if utf8Cont c3 then
                  (utf8Decode r4).map
                    (fun cps => ((b - 240) * 262144 + (c1 - 128) * 4096 + (c2 - 128) * 64 +
                      (c3 - 128)) :: cps)
                else none
            else none
        else none
    else none

/-- Recursion core of `utf8Lossy`, structurally recursive on a fuel that
decreases by one per step; since every step consumes at least one byte,
fuel equal to the length of the byte list always suffices (the fuel-0 arm
is unreachable then). -/
def utf8LossyGo : Nat → List Nat → List Nat
  | _, [] => []
  | 0, _ => []
  | fuel + 1, b :: rest =>
    if b < 128 then b :: utf8LossyGo fuel rest
    else if 194 ≤ b ∧ b ≤ 223 then
      match rest with
      | [] => [65533]
      | c1 :: r2 =>
        if utf8Cont c1 then ((b - 192) * 64 + (c1 - 128)) :: utf8LossyGo fuel r2
        else 65533 :: utf8LossyGo fuel (c1 :: r2)
    else if 224 ≤ b ∧ b ≤ 239 then
      match rest with
      | [] => [65533]
      | c1 :: r2 =>
        if lead3Ok b c1 then
          match r2 with
          | [] => [65533]
          | c2 :: r3 =>
            if utf8Cont c2 then
              ((b - 224) * 4096 + (c1 - 128) * 64 + (c2 - 128)) :: utf8LossyGo fuel r3
            else 65533 :: utf8LossyGo fuel (c2 :: r3)
        else 65533 :: utf8LossyGo fuel (c1 :: r2)
    else if 240 ≤ b ∧ b ≤ 244 then
      match rest with
      | [] => [65533]
      | c1 :: r2 =>
        if lead4Ok b c1 then
          match r2 with
          | [] => [65533]
          | c2 :: r3 =>
            if utf8Cont c2 then
              match r3 with
              | [] => [65533]
              | c3 :: r4 =>
                if utf8Cont c3 then
                  ((b - 240) * 262144 + (c1 - 128) * 4096 + (c2 - 128) * 64 + (c3 - 128)) ::
                    utf8LossyGo fuel r4
                else 65533 :: utf8LossyGo fuel (c3 :: r4)
            else 65533 :: utf8LossyGo fuel (c2 :: r3)
        else 65533 :: utf8LossyGo fuel (c1 :: r2)
    else 65533 :: utf8LossyGo fuel rest

/-- Rust `String::from_utf8_lossy`: invalid sequences are replaced by
U+FFFD (65533), one replacement per maximal invalid prefix, resuming after
the bytes that formed a valid prefix of some sequence. -/
def utf8Lossy (l : List Nat) : List Nat := utf8LossyGo l.length l

/-- tokio `AsyncBufReadExt::read_line`: bytes up to and including LF,
decoded as UTF-8 (errors on invalid UTF-8); returns codepoints and the
unread remainder. -/
def readLine (s : List Nat) : Option (List Nat × List Nat) :=
  let (lineBytes, rest) := splitLine s
  match utf8Decode lineBytes with
  | none => none
  | some cps => some (cps, rest)

/-- Rust `usize::from_str` (an optional leading `+`, then decimal digits;
integer overflow is not modelled). -/
def parseUsize (l : List Nat) : Option Nat :=
  let ds := if l.head? = some 43 then l.tail else l
  if ds ≠ [] ∧ ds.all (fun c => decide (48 ≤ c ∧ c ≤ 57)) = true then
    some (ds.foldl (fun acc c => acc * 10 + (c - 48)) 0)
  else none

/-- sieve_client.rs `parse_literal_length`: `{N}` with N parsed as usize. -/
def parse_literal_length (line : List Nat) : Option Nat :=
  if line.head? = some 123 ∧ line.getLast? = some 125 then
    parseUsize ((line.drop 1).dropLast)
  else none

/-- sieve_client.rs `ManageSieveError` (payloads carry the codepoints the
code formats into the message). -/
inductive ManageSieveError where
  | ioError
  | protocolError (msg : List Nat)
  | serverError (msg : List Nat)
  | scriptNotFound (name : List Nat)
  | invalidResponse (msg : List Nat)
deriving DecidableEq

deriving instance DecidableEq for Except

/-- The decimal rendering of a `usize` (Rust `Display`), as ASCII bytes. -/
def numBytes (n : Nat) : List Nat :=
  if n = 0 then [48] else ((Nat.digits 10 n).map (fun d => d + 48)).reverse

/-- sieve_client.rs `get_script`, reading from the byte stream `stream`
after the GETSCRIPT command has been sent: one response line; on a `{N}`
literal header, exactly N raw bytes, two framing bytes, and a final status
line; the N bytes are returned lossily decoded when the status is OK. -/
def getScript (script : List Nat) (stream : List Nat) :
    Except ManageSieveError (List Nat) :=
  match readLine stream with
  | none => .error .ioError
  | some (line0, s1) =>
    let line := trimB line0
    if isPrefixB (strB ("\x7b")) line then
      match parse_literal_length line with
      | some length =>
        if length + 2 ≤ s1.length then
          let script_content := s1.take length
          let s2 := s1.drop (length + 2)
          match readLine s2 with
          | none => .error .ioError
          | some (line2, _) =>
            let final_line := upperB (trimB line2)
            if isPrefixB (strB ("OK")) final_line then .ok (utf8Lossy script_content)
            else .error (.serverError final_line)
        else .error .ioError
      | none => .error (.protocolError (strB ("Invalid literal length format")))
    else
      let line_upper := upperB line
      if isPrefixB (strB ("NO")) line_upper then .error (.scriptNotFound script)
      else if isPrefixB (strB ("BYE")) line_upper then .error (.serverError line)
      else .error (.invalidResponse line)

/-- sieve_client.rs `put_script`: the bytes written to the connection
(command line with inline literal length, then the raw content) and the
classification of the single response line read from `stream`. -/
def putScript (script content : List Nat) (stream : List Nat) :
    List Nat × Except ManageSieveError Unit :=
  let command := strB ("PUTSCRIPT \x22") ++ script ++ strB ("\x22 \x7b") ++
    numBytes content.length ++ strB ("\x7d") ++ [13, 10]
  (command ++ content,
    match readLine stream with
    | none => .error .ioError
    | some (line0, _) =>
      let line := upperB (trimB line0)
      if isPrefixB (strB ("OK")) line then .ok ()
      else if isPrefixB (strB ("NO")) line then .error (.serverError (trimB line0))
      else if isPrefixB (strB ("BYE")) line then .error (.serverError (trimB line0))
      else .error (.invalidResponse (trimB line0)))

/-- sieve_client.rs `ConnectError`. -/
inductive ConnectError where
  | connectionFailed
  | protocolError (msg : List Nat)
  | tlsError
  | authenticationFailed (msg : List Nat)
deriving DecidableEq

/-- One sextet of the standard base64 alphabet. -/
def b64Digit (i : Nat) : Nat :=
  if i < 26 then 65 + i
  else if i < 52 then 71 + i
  else if i < 62 then i - 4
  else if i = 62 then 43
  else 47

/-- base64 `general_purpose::STANDARD` encoding with `=` padding. -/
def base64Encode : List Nat → List Nat
  | a :: b :: c :: rest =>
    b64Digit (a / 4) :: b64Digit ((a % 4) * 16 + b / 16) ::
      b64Digit ((b % 16) * 4 + c / 64) :: b64Digit (c % 64) :: base64Encode rest
  | [a, b] =>
    [b64Digit (a / 4), b64Digit ((a % 4) * 16 + b / 16), b64Digit ((b % 16) * 4), 61]
  | [a] => [b64Digit (a / 4), b64Digit ((a % 4) * 16), 61, 61]
  | [] => []

/-- The AUTHENTICATE command line sieve_client.rs `authenticate` writes:
the base64 encoding of `NUL username NUL password` quoted as the argument
of `AUTHENTICATE "PLAIN"`. -/
def authCommand (username password : List Nat) : List Nat :=
  strB ("AUTHENTICATE \x22PLAIN\x22 \x22") ++
    base64Encode (0 :: username ++ 0 :: password) ++ strB ("\x22") ++ [13, 10]

/-- sieve_client.rs `authenticate`: fails up front (writing nothing) when
the negotiated SASL list lacks "PLAIN"; otherwise writes the AUTHENTICATE
command and classifies the single response line.  The first component is
the bytes written to the connection, if any. -/
def authenticate (sasl : List (List Nat)) (username password : List Nat)
    (stream : List Nat) : Option (List Nat) × Except ConnectError Unit :=
  if strB ("PLAIN") ∈ sasl then
    (some (authCommand username password),
      match readLine stream with
      | none => .error .connectionFailed
      | some (line0, _) =>
        let up := upperB (trimB line0)
        if isPrefixB (strB ("OK")) up then .ok ()
        else if isPrefixB (strB ("NO")) up then
          .error (.authenticationFailed (strB ("Server rejected credentials: ") ++ trimB line0))
        else if isPrefixB (strB ("BYE")) up then
          .error (.authenticationFailed (strB ("Server disconnected: ") ++ trimB line0))
        else
          .error (.authenticationFailed (strB ("Unexpected response: ") ++ trimB line0)))
  else
    (none, .error (.authenticationFailed (strB ("SASL PLAIN mechanism not supported"))))

/-- Index of the first `"` in a line (Rust `str::find('"')`, in characters). -/
def findIdxQ (l : List Nat) : Option Nat := l.findIdx? (fun b => b == 34)

/-- Index of the last `"` in a line (Rust `str::rfind('"')`). -/
def rfindIdxQ (l : List Nat) : Option Nat :=
  match l.reverse.findIdx? (fun b => b == 34) with
  | some j => some (l.length - 1 - j)
  | none => none

/-- The diagnostic-message heuristic shared by the OK-with-warnings and NO
branches of sieve_client.rs `check_script`: a quoted segment on the line
if present, otherwise a literal payload read from the stream (lossily
decoded), otherwise a default.  Returns the message and the unread rest of
the stream. -/
def extractMsg (line s deflt : List Nat) :
    Except ManageSieveError (List Nat × List Nat) :=
  match findIdxQ line with
  | some start =>
    match rfindIdxQ line with
    | some e =>
      if start ≠ e then .ok ((line.drop (start + 1)).take (e - (start + 1)), s)
      else .ok (deflt, s)
    | none => .ok (deflt, s)
  | none =>
    if line.contains 123 then
      match parse_literal_length line with
      | some length =>
        if length ≤ s.length then .ok (utf8Lossy (s.take length), s.drop length)
        else .error .ioError
      | none => .ok (deflt, s)
    else .ok (deflt, s)

/-- sieve_client.rs `check_script`: the command bytes written (inline
literal with the script) and the classified response: OK without warnings
is `none`, OK with a warnings marker extracts a diagnostic, NO extracts an
error message, BYE is a server error, anything else an invalid response. -/
def checkScript (script : List Nat) (stream : List Nat) :
    List Nat × Except ManageSieveError (Option (List Nat)) :=
  (strB ("CHECKSCRIPT \x7b") ++ numBytes script.length ++ strB ("\x7d") ++ [13, 10] ++ script,
    match readLine stream with
    | none => .error .ioError
    | some (line0, s1) =>
      let line := trimB line0
      let up := upperB line
      if isPrefixB (strB ("OK")) up then
        if decide ((strB ("(WARNINGS)")) <:+: up) then
          match extractMsg line s1 (strB ("Script has warnings")) with
          | .ok (msg, _) => .ok (some msg)
          | .error e => .error e
        else .ok none
      else if isPrefixB (strB ("NO")) up then
        match extractMsg line s1 line with
        | .ok (msg, _) => .error (.serverError msg)
        | .error e => .error e
      else if isPrefixB (strB ("BYE")) up then .error (.serverError line)
      else .error (.invalidResponse line))

/-! ### Part 3: derived definitions used in the claim statements -/

/-- The quoted-escape encoding from the spec: every backslash and double
quote is prefixed with a backslash, all other characters are kept. -/
def escapeSieve : Str → Str
  | [] => []
  | c :: s => (if c = '\\' ∨ c = '"' then ['\\', c] else [c]) ++ escapeSieve s

mutual

/-- The `allof`/`anyof` non-emptiness invariant on a condition tree. -/
def condOk : Condition → Bool
  | .header _ => true
  | .address _ => true
  | .allOf cs => !cs.isEmpty && condListOk cs
  | .anyOf cs => !cs.isEmpty && condListOk cs

/-- `condOk` on every element of a list. -/
def condListOk : List Condition → Bool
  | [] => true
  | c :: cs => condOk c && condListOk cs

end

mutual

/-- The `allof`/`anyof` non-emptiness invariant on an expression. -/
def exprOk : Expression → Bool
  | .ifE (.mk c es eifs eb) =>
    condOk c && exprListOk es && elsifListOk eifs && exprListOk eb
  | _ => true

/-- `exprOk` on every element of a list. -/
def exprListOk : List Expression → Bool
  | [] => true
  | e :: es => exprOk e && exprListOk es

/-- The invariant on every `elsif` clause of an `if`. -/
def elsifListOk : List (Condition × List Expression) → Bool
  | [] => true
  | (c, es) :: rest => condOk c && exprListOk es && elsifListOk rest

end

/-- Source text of the i-th generated `elsif` clause (value `x^i`). -/
def elsifClause (i : Nat) : Str :=
  str (" elsif header :is \x22h\x22 \x22") ++ List.replicate i 'x' ++
    str ("\x22 \x7b keep; \x7d")

/-- `count` generated `elsif` clauses starting at index `start`. -/
def elsifChain : Nat → Nat → Str
  | _, 0 => []
  | start, count + 1 => elsifClause start ++ elsifChain (start + 1) count

/-- An `if` block with `n` `elsif` clauses and no `else` clause. -/
def genIfInput (n : Nat) : Str :=
  str ("if header :is \x22h\x22 \x22v\x22 \x7b keep; \x7d") ++ elsifChain 0 n

/-- The AST value of the i-th generated `elsif` clause. -/
def elsifVal (i : Nat) : Condition × List Expression :=
  (.header { comparison_type := .is_, source := str ("h"), value := List.replicate i 'x' },
    [.keep])

/-- The AST values of `count` generated clauses starting at `start`. -/
def elsifVals : Nat → Nat → List (Condition × List Expression)
  | _, 0 => []
  | start, count + 1 => elsifVal start :: elsifVals (start + 1) count

/-- A parser whose unconsumed remainder is always a suffix of its input. -/
def SuffixP (p : P α) : Prop :=
  ∀ input rest a, p input = some (rest, a) → rest <:+ input

/-! ### Suffix lemmas: every parser's remainder is a suffix of its input -/

theorem suffixP_pchar (c : Char) : SuffixP (pchar c) := by
  intro input rest a h
  cases input with
  | nil => simp [pchar] at h
  | cons x xs =>
    simp only [pchar] at h
    split at h
    · cases h
      exact List.suffix_cons _ _
    · cases h

theorem suffixP_ptag (t : Str) : SuffixP (ptag t) := by
  intro input rest a h
  simp only [ptag] at h
  split at h
  · cases h
    exact List.drop_suffix _ _
  · cases h

theorem suffixP_take_while (f : Char → Bool) : SuffixP (take_whileP f) := by
  intro input rest a h
  simp only [take_whileP] at h
  cases h
  exact List.drop_suffix _ _

theorem suffixP_is_not (bad : Str) : SuffixP (is_notP bad) := by
  intro input rest a h
  simp only [is_notP] at h
  split at h
  · cases h
  · cases h
    exact List.drop_suffix _ _

theorem suffixP_pmap (p : P α) (f : α → β) (hp : SuffixP p) : SuffixP (pmap p f) := by
  intro input rest a h
  simp only [pmap] at h
  split at h
  · cases h
  · next heq =>
    cases h
    exact hp _ _ _ heq

theorem suffixP_pvalue (v : β) (p : P α) (hp : SuffixP p) : SuffixP (pvalue v p) := by
  intro input rest a h
  simp only [pvalue] at h
  split at h
  · cases h
  · next heq =>
    cases h
    exact hp _ _ _ heq

theorem suffixP_palt (p q : P α) (hp : SuffixP p) (hq : SuffixP q) : SuffixP (palt p q) := by
  intro input rest a h
  simp only [palt] at h
  split at h
  · next r heq =>
    cases h
    exact hp _ _ _ heq
  · exact hq _ _ _ h

theorem suffixP_popt (p : P α) (hp : SuffixP p) : SuffixP (popt p) := by
  intro input rest a h
  simp only [popt] at h
  split at h
  · next r x heq =>
    cases h
    exact hp _ _ _ heq
  · cases h
    exact List.suffix_refl _

theorem suffixP_pverify (p : P α) (f : α → Bool) (hp : SuffixP p) :
    SuffixP (pverify p f) := by
  intro input rest a h
  simp only [pverify] at h
  split at h
  · cases h
  · next heq =>
    split at h
    · cases h
      exact hp _ _ _ heq
    · cases h

theorem suffixP_preceded (p : P α) (q : P β) (hp : SuffixP p) (hq : SuffixP q) :
    SuffixP (preceded p q) := by
  intro input rest a h
  simp only [preceded] at h
  split at h
  · cases h
  · next r x heq => exact (hq _ _ _ h).trans (hp _ _ _ heq)

theorem suffixP_delimited (p : P α) (q : P β) (r : P γ) (hp : SuffixP p) (hq : SuffixP q)
    (hr : SuffixP r) : SuffixP (delimitedP p q r) := by
  intro input rest a h
  simp only [delimitedP] at h
  split at h
  · cases h
  · next r1 x1 heq1 =>
    split at h
    · cases h
    · next r2 x2 heq2 =>
      split at h
      · cases h
      · next r3 x3 heq3 =>
        cases h
        exact ((hr _ _ _ heq3).trans (hq _ _ _ heq2)).trans (hp _ _ _ heq1)

theorem suffixP_ppair (p : P α) (q : P β) (hp : SuffixP p) (hq : SuffixP q) :
    SuffixP (ppair p q) := by
  intro input rest a h
  simp only [ppair] at h
  split at h
  · cases h
  · next r1 x1 heq1 =>
    split at h
    · cases h
    · next r2 x2 heq2 =>
      cases h
      exact (hq _ _ _ heq2).trans (hp _ _ _ heq1)

theorem suffixP_fold_many0 (p : P α) (f : β → α → β) (hp : SuffixP p) :
    ∀ fuel acc, SuffixP (fold_many0 p f fuel acc) := by
  intro fuel
  induction fuel with
  | zero =>
    intro acc input rest a h
    simp only [fold_many0] at h
    cases h
    exact List.suffix_refl _
  | succ n ih =>
    intro acc input rest a h
    simp only [fold_many0] at h
    split at h
    · cases h
      exact List.suffix_refl _
    · next r1 x heq =>
      split at h
      · cases h
      · exact (ih _ _ _ _ h).trans (hp _ _ _ heq)

theorem suffixP_many0F (p : P α) (hp : SuffixP p) : ∀ fuel, SuffixP (many0F p fuel) := by
  intro fuel
  induction fuel with
  | zero =>
    intro input rest a h
    simp [many0F] at h
  | succ n ih =>
    intro input rest a h
    simp only [many0F] at h
    split at h
    · cases h
      exact List.suffix_refl _
    · next r1 x heq =>
      split at h
      · cases h
      · split at h
        · cases h
        · next r2 xs heq2 =>
          cases h
          exact (ih _ _ _ heq2).trans (hp _ _ _ heq)

theorem suffixP_sepTail (sep : P α) (p : P β) (hsep : SuffixP sep) (hp : SuffixP p) :
    ∀ fuel, SuffixP (sepTail sep p fuel) := by
  intro fuel
  induction fuel with
  | zero =>
    intro input rest a h
    simp [sepTail] at h
  | succ n ih =>
    intro input rest a h
    simp only [sepTail] at h
    split at h
    · cases h
      exact List.suffix_refl _
    · next i1 x heq1 =>
      split at h
      · cases h
      · split at h
        · cases h
          exact List.suffix_refl _
        · next i2 y heq2 =>
          split at h
          · cases h
          · next r2 xs heq3 =>
            cases h
            exact ((ih _ _ _ heq3).trans (hp _ _ _ heq2)).trans (hsep _ _ _ heq1)

theorem suffixP_separated_list0 (sep : P α) (p : P β) (hsep : SuffixP sep) (hp : SuffixP p)
    (fuel : Nat) : SuffixP (separated_list0 sep p fuel) := by
  intro input rest a h
  simp only [separated_list0] at h
  split at h
  · cases h
    exact List.suffix_refl _
  · next i1 x heq1 =>
    split at h
    · cases h
    · next r2 xs heq2 =>
      cases h
      exact (suffixP_sepTail sep p hsep hp fuel _ _ _ heq2).trans (hp _ _ _ heq1)

theorem suffixP_separated_list1 (sep : P α) (p : P β) (hsep : SuffixP sep) (hp : SuffixP p)
    (fuel : Nat) : SuffixP (separated_list1 sep p fuel) := by
  intro input rest a h
  simp only [separated_list1] at h
  split at h
  · cases h
  · next i1 x heq1 =>
    split at h
    · cases h
    · next r2 xs heq2 =>
      cases h
      exact (suffixP_sepTail sep p hsep hp fuel _ _ _ heq2).trans (hp _ _ _ heq1)

theorem suffixP_parse_string : SuffixP parse_string := by
  intro input rest a h
  simp only [parse_string] at h
  exact suffixP_delimited _ _ _ (suffixP_pchar _)
    (suffixP_fold_many0 _ _
      (suffixP_palt _ _
        (suffixP_pmap _ _ (suffixP_pverify _ _ (suffixP_is_not _)))
        (suffixP_pmap _ _ (suffixP_preceded _ _ (suffixP_pchar _)
          (suffixP_palt _ _ (suffixP_pvalue _ _ (suffixP_pchar _))
            (suffixP_pvalue _ _ (suffixP_pchar _)))))) _ _)
    (suffixP_pchar _) _ _ _ h

theorem suffixP_multispace0 : SuffixP multispace0 :=
  suffixP_take_while _

theorem suffixP_multispace1 : SuffixP multispace1 :=
  suffixP_pverify _ _ suffixP_multispace0

theorem suffixP_parse_string_array : SuffixP parse_string_array := by
  intro input rest a h
  simp only [parse_string_array] at h
  exact suffixP_delimited _ _ _ (suffixP_ppair _ _ (suffixP_pchar _) suffixP_multispace0)
    (suffixP_separated_list0 _ _
      (suffixP_delimited _ _ _ suffixP_multispace0 (suffixP_pchar _) suffixP_multispace0)
      suffixP_parse_string _)
    (suffixP_ppair _ _ suffixP_multispace0 (suffixP_pchar _)) _ _ _ h

theorem suffixP_parse_require : SuffixP parse_require := by
  intro input rest a h
  simp only [parse_require] at h
  exact suffixP_delimited _ _ _ (suffixP_ppair _ _ (suffixP_ptag _) suffixP_multispace0)
    suffixP_parse_string_array (suffixP_pchar _) _ _ _ h

theorem suffixP_parse_string_comparison_type : SuffixP parse_string_comparison_type :=
  suffixP_palt _ _ (suffixP_pmap _ _ (suffixP_ptag _))
    (suffixP_palt _ _ (suffixP_pmap _ _ (suffixP_ptag _))
      (suffixP_palt _ _ (suffixP_pmap _ _ (suffixP_ptag _))
        (suffixP_pmap _ _ (suffixP_ptag _))))

theorem suffixP_parse_string_condition : SuffixP parse_string_condition := by
  intro input rest a h
  simp only [parse_string_condition] at h
  split at h
  · cases h
  · next r1 ct heq1 =>
    split at h
    · cases h
    · next r2 src heq2 =>
      split at h
      · cases h
      · next r3 v heq3 =>
        cases h
        exact ((suffixP_preceded _ _ suffixP_multispace1 suffixP_parse_string _ _ _ heq3).trans
          (suffixP_preceded _ _ suffixP_multispace1 suffixP_parse_string _ _ _ heq2)).trans
          (suffixP_parse_string_comparison_type _ _ _ heq1)

theorem suffixP_parse_condition :
    ∀ fuel, SuffixP (parse_condition fuel) ∧ SuffixP (parse_condition_list fuel) := by
  intro fuel
  induction fuel with
  | zero =>
    constructor
    · intro input rest a h
      simp [parse_condition] at h
    · intro input rest a h
      simp [parse_condition_list] at h
  | succ n ih =>
    constructor
    · intro input rest a h
      simp only [parse_condition] at h
      exact suffixP_palt _ _
        (suffixP_pmap _ _ (suffixP_preceded _ _ (suffixP_ptag _)
          (suffixP_preceded _ _ suffixP_multispace1 suffixP_parse_string_condition)))
        (suffixP_palt _ _
          (suffixP_pmap _ _ (suffixP_preceded _ _ (suffixP_ptag _)
            (suffixP_preceded _ _ suffixP_multispace1 suffixP_parse_string_condition)))
          (suffixP_palt _ _
            (suffixP_pmap _ _ (suffixP_preceded _ _ (suffixP_ptag _)
              (suffixP_preceded _ _ suffixP_multispace0 ih.2)))
            (suffixP_pmap _ _ (suffixP_preceded _ _ (suffixP_ptag _)
              (suffixP_preceded _ _ suffixP_multispace0 ih.2))))) _ _ _ h
    · intro input rest a h
      simp only [parse_condition_list] at h
      exact suffixP_delimited _ _ _ (suffixP_preceded _ _ (suffixP_pchar _) suffixP_multispace0)
        (suffixP_separated_list1 _ _
          (suffixP_delimited _ _ _ suffixP_multispace0 (suffixP_pchar _) suffixP_multispace0)
          ih.1 _)
        (suffixP_preceded _ _ suffixP_multispace0 (suffixP_pchar _)) _ _ _ h

theorem suffixP_parse_flags : SuffixP parse_flags := by
  intro input rest a h
  simp only [parse_flags] at h
  split at h
  · cases h
  · next r raw heq =>
    cases h
    exact suffixP_palt _ _ (suffixP_pmap _ _ suffixP_parse_string)
      suffixP_parse_string_array _ _ _ heq

theorem suffixP_flag_command (command : Str) : SuffixP (flag_command command) :=
  suffixP_delimited _ _ _ (suffixP_ptag _)
    (suffixP_delimited _ _ _ suffixP_multispace1 suffixP_parse_flags suffixP_multispace0)
    (suffixP_pchar _)

theorem suffixP_expr :
    ∀ fuel, (∀ t, SuffixP (simple_if t fuel)) ∧ SuffixP (parse_if fuel) ∧
      SuffixP (parse_expression fuel) ∧ SuffixP (parse_expression_list fuel) := by
  intro fuel
  induction fuel with
  | zero =>
    refine ⟨fun t input rest a h => ?_, fun input rest a h => ?_,
      fun input rest a h => ?_, fun input rest a h => ?_⟩
    · simp [simple_if] at h
    · simp [parse_if] at h
    · simp [parse_expression] at h
    · simp [parse_expression_list] at h
  | succ n ih =>
    have hsimple : ∀ t, SuffixP (simple_if t (n + 1)) := by
      intro t input rest a h
      simp only [simple_if] at h
      exact suffixP_ppair _ _
        (suffixP_preceded _ _ (suffixP_ptag _)
          (suffixP_delimited _ _ _ suffixP_multispace1 (suffixP_parse_condition (n + 1)).1
            suffixP_multispace1))
        (suffixP_delimited _ _ _ (suffixP_pchar _) ih.2.2.2
          (suffixP_preceded _ _ suffixP_multispace0 (suffixP_pchar _))) _ _ _ h
    have hif : SuffixP (parse_if (n + 1)) := by
      intro input rest a h
      simp only [parse_if] at h
      split at h
      · cases h
      · next r0 v0 heq0 =>
        split at h
        · cases h
        · next r1 eifs heq1 =>
          split at h
          · cases h
          · next r2 ob heq2 =>
            cases h
            exact ((suffixP_popt _
                (suffixP_preceded _ _
                  (suffixP_delimited _ _ _ suffixP_multispace0 (suffixP_ptag _)
                    suffixP_multispace0)
                  (suffixP_delimited _ _ _ (suffixP_pchar _) ih.2.2.2
                    (suffixP_preceded _ _ suffixP_multispace0 (suffixP_pchar _)))) _ _ _
                heq2).trans
              (suffixP_many0F _ (suffixP_preceded _ _ suffixP_multispace0 (ih.1 _)) _ _ _ _
                heq1)).trans
              (ih.1 _ _ _ _ heq0)
    have hexpr : SuffixP (parse_expression (n + 1)) := by
      intro input rest a h
      simp only [parse_expression] at h
      exact suffixP_preceded _ _ suffixP_multispace0
        (suffixP_palt _ _ (suffixP_pmap _ _ suffixP_parse_require)
          (suffixP_palt _ _ (suffixP_pmap _ _ ih.2.1)
            (suffixP_palt _ _ (suffixP_pmap _ _ (suffixP_flag_command _))
              (suffixP_palt _ _ (suffixP_pmap _ _ (suffixP_flag_command _))
                (suffixP_palt _ _ (suffixP_pmap _ _ (suffixP_flag_command _))
                  (suffixP_palt _ _ (suffixP_pvalue _ _ (suffixP_ptag _))
                    (suffixP_palt _ _ (suffixP_pvalue _ _ (suffixP_ptag _))
                      (suffixP_palt _ _ (suffixP_pvalue _ _ (suffixP_ptag _))
                        (suffixP_pmap _ _ (suffixP_delimited _ _ _ (suffixP_ptag _)
                          (suffixP_preceded _ _ suffixP_multispace1 suffixP_parse_string)
                          (suffixP_pchar _))))))))))) _ _ _ h
    refine ⟨hsimple, hif, hexpr, ?_⟩
    intro input rest a h
    simp only [parse_expression_list] at h
    exact suffixP_many0F _ ih.2.2.1 _ _ _ _ h


/-! ### String-literal lemmas: escaping and decoding -/

theorem mem_escape_chars (c : Char) : c ∈ str ("\\\x22") ↔ (c = '\\' ∨ c = '"') := by
  have h : str ("\\\x22") = ['\\', '"'] := rfl
  rw [h]
  simp

theorem takeWhile_append_all (p : Char → Bool) (t u : Str) (ht : ∀ c ∈ t, p c = true) :
    (t ++ u).takeWhile p = t ++ u.takeWhile p := by
  induction t with
  | nil => simp
  | cons c tl ih =>
    have hc : p c = true := ht c (by simp)
    simp only [List.cons_append, List.takeWhile_cons, hc, if_true]
    rw [ih (fun x hx => ht x (by simp [hx]))]

theorem dropWhile_head_false (p : Char → Bool) :
    ∀ (l : Str) d m, l.dropWhile p = d :: m → p d = false := by
  intro l
  induction l with
  | nil => intro d m h; simp at h
  | cons c tl ih =>
    intro d m h
    by_cases hc : p c = true
    · simp only [List.dropWhile_cons, hc, if_true] at h
      exact ih d m h
    · simp only [List.dropWhile_cons, hc, if_false] at h
      cases h
      simpa using hc

theorem unescaped_run (t v : Str) (ht : ∀ x ∈ t, x ≠ '\\' ∧ x ≠ '"') (hne : t ≠ [])
    (hv : v.head? = some '\\' ∨ v.head? = some '"') :
    parse_unescaped_sequence (t ++ v) = some (v, t) := by
  have hgood : ∀ x ∈ t, (!(str ("\\\x22")).contains x) = true := by
    intro x hx
    have h := ht x hx
    simp [mem_escape_chars, h.1, h.2]
  have hrunv : v.takeWhile (fun c => !(str ("\\\x22")).contains c) = [] := by
    cases v with
    | nil => rfl
    | cons c l =>
      simp only [List.head?_cons, Option.some_inj] at hv
      have hc : c ∈ str ("\\\x22") := by
        rcases hv with h | h <;> simp [mem_escape_chars, h]
      simp [List.takeWhile_cons, hc]
  have hrun : (t ++ v).takeWhile (fun c => !(str ("\\\x22")).contains c) = t := by
    rw [takeWhile_append_all _ _ _ hgood, hrunv, List.append_nil]
  simp only [parse_unescaped_sequence, pverify, is_notP, hrun]
  rw [if_neg (by simp [hne]), List.drop_left]
  simp [hne]

theorem unescaped_none (c : Char) (u : Str) (hc : c = '\\' ∨ c = '"') :
    parse_unescaped_sequence (c :: u) = none := by
  have hcc : c ∈ str ("\\\x22") := by
    rcases hc with h | h <;> simp [mem_escape_chars, h]
  simp [parse_unescaped_sequence, pverify, is_notP, List.takeWhile_cons, hcc]

theorem part_on_quote (u : Str) : parse_string_part ('"' :: u) = none := by
  simp only [parse_string_part, palt, pmap]
  rw [unescaped_none '"' u (Or.inr rfl)]
  simp [parse_escaped_char, preceded, pchar]

theorem part_on_escape (c : Char) (u : Str) (hc : c = '\\' ∨ c = '"') :
    parse_string_part ('\\' :: c :: u) = some (u, .escaped c) := by
  simp only [parse_string_part, palt, pmap]
  rw [unescaped_none '\\' (c :: u) (Or.inl rfl)]
  rcases hc with h | h <;>
    simp [parse_escaped_char, preceded, pchar, h, pvalue, palt]

theorem part_on_bad_escape (c : Char) (u : Str) (h1 : c ≠ '\\') (h2 : c ≠ '"') :
    parse_string_part ('\\' :: c :: u) = none := by
  simp only [parse_string_part, palt, pmap]
  rw [unescaped_none '\\' (c :: u) (Or.inl rfl)]
  simp [parse_escaped_char, preceded, pchar, palt, pvalue, h1, h2]

theorem part_on_plain (t v : Str) (ht : ∀ x ∈ t, x ≠ '\\' ∧ x ≠ '"') (hne : t ≠ [])
    (hv : v.head? = some '\\' ∨ v.head? = some '"') :
    parse_string_part (t ++ v) = some (v, .literal t) := by
  simp only [parse_string_part, palt, pmap]
  rw [unescaped_run t v ht hne hv]

theorem escapeSieve_append_plain (t u : Str) (ht : ∀ x ∈ t, x ≠ '\\' ∧ x ≠ '"') :
    escapeSieve (t ++ u) = t ++ escapeSieve u := by
  induction t with
  | nil => simp
  | cons c tl ih =>
    have hc := ht c (by simp)
    simp only [List.cons_append, escapeSieve]
    rw [if_neg (by tauto)]
    simp only [List.singleton_append, List.cons_append, List.cons.injEq, true_and]
    exact ih (fun x hx => ht x (by simp [hx]))

theorem escapeSieve_plain (t : Str) (ht : ∀ x ∈ t, x ≠ '\\' ∧ x ≠ '"') :
    escapeSieve t = t := by
  have h := escapeSieve_append_plain t [] ht
  simpa [escapeSieve] using h

theorem fold_many0_done (p : P α) (f : β → α → β) (n : Nat) (acc : β) (input : Str)
    (hp : p input = none) :
    fold_many0 p f (n + 1) acc input = some (input, acc) := by
  simp [fold_many0, hp]

theorem fold_many0_step (p : P α) (f : β → α → β) (n : Nat) (acc : β) (input r1 : Str)
    (a : α) (hp : p input = some (r1, a)) (hlen : r1.length ≠ input.length) :
    fold_many0 p f (n + 1) acc input = fold_many0 p f n (f acc a) r1 := by
  simp only [fold_many0, hp]
  rw [if_neg hlen]

theorem many0F_done (p : P α) (n : Nat) (input : Str) (hp : p input = none) :
    many0F p (n + 1) input = some (input, []) := by
  simp [many0F, hp]

theorem many0F_step (p : P α) (n : Nat) (input r1 : Str) (x : α)
    (hp : p input = some (r1, x)) (hlen : r1.length ≠ input.length) :
    many0F p (n + 1) input =
      match many0F p n r1 with
      | none => none
      | some (r, xs) => some (r, x :: xs) := by
  simp only [many0F, hp]
  rw [if_neg hlen]

theorem sepTail_done (sep : P α) (p : P β) (n : Nat) (input : Str)
    (hsep : sep input = none) : sepTail sep p (n + 1) input = some (input, []) := by
  simp [sepTail, hsep]

theorem fold_escape : ∀ fuel s acc rest, (escapeSieve s).length < fuel →
    fold_many0 parse_string_part push_fragment fuel acc (escapeSieve s ++ '"' :: rest) =
      some ('"' :: rest, acc ++ s) := by
  intro fuel
  induction fuel with
  | zero => intro s acc rest h; omega
  | succ n ih =>
    intro s acc rest hlen
    cases s with
    | nil =>
      simp only [escapeSieve, List.nil_append]
      rw [fold_many0_done _ _ _ _ _ (part_on_quote rest)]
      simp
    | cons c s =>
      by_cases hc : c = '\\' ∨ c = '"'
      · have hesc : escapeSieve (c :: s) = '\\' :: c :: escapeSieve s := by
          simp [escapeSieve, hc]
        rw [hesc] at hlen ⊢
        rw [List.cons_append, List.cons_append]
        rw [fold_many0_step _ _ _ _ _ _ _
          (part_on_escape c (escapeSieve s ++ '"' :: rest) hc) (by simp; omega)]
        rw [ih s (push_fragment acc (.escaped c)) rest
          (by simp only [List.length_cons] at hlen; omega)]
        simp [push_fragment]
      · push_neg at hc
        have hplc : ∀ x : Char, ((fun y : Char => !(str ("\\\x22")).contains y) x = true) ↔
            (x ≠ '\\' ∧ x ≠ '"') := by
          intro x
          simp [mem_escape_chars]
        set pl := fun y : Char => !(str ("\\\x22")).contains y with hpl
        set t := (c :: s).takeWhile pl with hT
        set u := (c :: s).dropWhile pl with hU
        have hsplit : t ++ u = c :: s := by
          rw [hT, hU]
          exact List.takeWhile_append_dropWhile pl (c :: s)
        have htp : ∀ x ∈ t, x ≠ '\\' ∧ x ≠ '"' := by
          intro x hx
          exact (hplc x).mp (List.mem_takeWhile_imp hx)
        have htne : t ≠ [] := by
          rw [hT]
          simp [List.takeWhile_cons, (hplc c).mpr hc]
        have hesc : escapeSieve (c :: s) = t ++ escapeSieve u := by
          rw [← hsplit, escapeSieve_append_plain t u htp]
        have hvhead : (escapeSieve u ++ '"' :: rest).head? = some '\\' ∨
            (escapeSieve u ++ '"' :: rest).head? = some '"' := by
          cases hu : u with
          | nil => right; simp [hu, escapeSieve]
          | cons d m =>
            have hd : pl d = false := dropWhile_head_false pl (c :: s) d m (by rw [← hU, hu])
            have hd2 : d = '\\' ∨ d = '"' := by
              by_contra hcon
              push_neg at hcon
              rw [(hplc d).mpr hcon] at hd
              cases hd
            have hes : escapeSieve (d :: m) = '\\' :: d :: escapeSieve m := by
              simp [escapeSieve, hd2]
            left
            simp [hu, hes]
        rw [hesc]
        rw [List.append_assoc]
        have hpart := part_on_plain t (escapeSieve u ++ '"' :: rest) htp htne hvhead
        have hlneq : (escapeSieve u ++ '"' :: rest).length ≠
            (t ++ (escapeSieve u ++ '"' :: rest)).length := by
          have h1 : 0 < t.length := List.length_pos.mpr htne
          simp only [List.length_append, List.length_cons]
          omega
        rw [fold_many0_step _ _ _ _ _ _ _ hpart hlneq]
        have hulen : (escapeSieve u).length < n := by
          have h1 : 0 < t.length := List.length_pos.mpr htne
          have h2 : (escapeSieve (c :: s)).length = t.length + (escapeSieve u).length := by
            rw [hesc, List.length_append]
          omega
        rw [ih u (push_fragment acc (.literal t)) rest hulen]
        simp only [push_fragment]
        rw [List.append_assoc, hsplit]

theorem parse_string_encode (s rest : Str) :
    parse_string ('"' :: escapeSieve s ++ '"' :: rest) = some (rest, s) := by
  have h1 : pchar '"' ('"' :: escapeSieve s ++ '"' :: rest) =
      some (escapeSieve s ++ '"' :: rest, '"') := by simp [pchar]
  simp only [parse_string, delimitedP, h1]
  rw [fold_escape _ s [] rest (by simp [List.length_append]; omega)]
  simp [pchar]

theorem parse_string_plain (t rest : Str) (ht : ∀ x ∈ t, x ≠ '\\' ∧ x ≠ '"') :
    parse_string ('"' :: t ++ '"' :: rest) = some (rest, t) := by
  have h := parse_string_encode t rest
  rw [escapeSieve_plain t ht] at h
  exact h

/-! ### Element-wise characterizations of the looping combinators -/

theorem preceded_some (p : P α) (q : P β) (input rest : Str) (b : β)
    (h : preceded p q input = some (rest, b)) :
    ∃ mid x, p input = some (mid, x) ∧ q mid = some (rest, b) := by
  simp only [preceded] at h
  split at h
  · cases h
  · next mid x heq => exact ⟨mid, x, heq, h⟩

theorem sepTail_all (sep : P α) (p : P β) (Q : β → Prop)
    (hp : ∀ i r b, p i = some (r, b) → Q b) :
    ∀ fuel input rest l, sepTail sep p fuel input = some (rest, l) → ∀ x ∈ l, Q x := by
  intro fuel
  induction fuel with
  | zero => intro input rest l h; simp [sepTail] at h
  | succ n ih =>
    intro input rest l h x hx
    simp only [sepTail] at h
    split at h
    · cases h
      simp at hx
    · next i1 y heq1 =>
      split at h
      · cases h
      · split at h
        · cases h
          simp at hx
        · next i2 z heq2 =>
          split at h
          · cases h
          · next r2 xs heq3 =>
            cases h
            rcases List.mem_cons.mp hx with hh | hh
            · exact hh ▸ hp _ _ _ heq2
            · exact ih _ _ _ heq3 x hh

theorem separated_list1_all (sep : P α) (p : P β) (Q : β → Prop)
    (hp : ∀ i r b, p i = some (r, b) → Q b) (fuel : Nat) (input rest : Str) (l : List β)
    (h : separated_list1 sep p fuel input = some (rest, l)) :
    l ≠ [] ∧ ∀ x ∈ l, Q x := by
  simp only [separated_list1] at h
  split at h
  · cases h
  · next i1 x heq1 =>
    split at h
    · cases h
    · next r2 xs heq2 =>
      cases h
      refine ⟨by simp, ?_⟩
      intro y hy
      rcases List.mem_cons.mp hy with hh | hh
      · exact hh ▸ hp _ _ _ heq1
      · exact sepTail_all sep p Q hp fuel _ _ _ heq2 y hh

theorem many0F_all (p : P α) (Q : α → Prop) (hp : ∀ i r b, p i = some (r, b) → Q b) :
    ∀ fuel input rest l, many0F p fuel input = some (rest, l) → ∀ x ∈ l, Q x := by
  intro fuel
  induction fuel with
  | zero => intro input rest l h; simp [many0F] at h
  | succ n ih =>
    intro input rest l h x hx
    simp only [many0F] at h
    split at h
    · cases h
      simp at hx
    · next r1 y heq1 =>
      split at h
      · cases h
      · split at h
        · cases h
        · next r2 xs heq2 =>
          cases h
          rcases List.mem_cons.mp hx with hh | hh
          · exact hh ▸ hp _ _ _ heq1
          · exact ih _ _ _ heq2 x hh

theorem many0F_last (p : P α) (hp : SuffixP p) :
    ∀ fuel input rest l, many0F p fuel input = some (rest, l) →
      p rest = none ∧ rest <:+ input := by
  intro fuel
  induction fuel with
  | zero => intro input rest l h; simp [many0F] at h
  | succ n ih =>
    intro input rest l h
    simp only [many0F] at h
    split at h
    · next heq =>
      cases h
      exact ⟨heq, List.suffix_refl _⟩
    · next r1 y heq1 =>
      split at h
      · cases h
      · split at h
        · cases h
        · next r2 xs heq2 =>
          cases h
          have hr := ih _ _ _ heq2
          exact ⟨hr.1, hr.2.trans (hp _ _ _ heq1)⟩

/-! ### The allof/anyof non-emptiness invariant -/

theorem condListOk_iff (cs : List Condition) :
    condListOk cs = true ↔ ∀ c ∈ cs, condOk c = true := by
  induction cs with
  | nil => simp [condListOk]
  | cons c cs ih => simp [condListOk, ih]

theorem parse_condition_ok :
    ∀ fuel, (∀ input rest c, parse_condition fuel input = some (rest, c) →
        condOk c = true) ∧
      (∀ input rest cs, parse_condition_list fuel input = some (rest, cs) →
        cs ≠ [] ∧ condListOk cs = true) := by
  intro fuel
  induction fuel with
  | zero =>
    constructor
    · intro input rest c h
      simp [parse_condition] at h
    · intro input rest cs h
      simp [parse_condition_list] at h
  | succ n ih =>
    have hlist : ∀ input rest cs, parse_condition_list (n + 1) input = some (rest, cs) →
        cs ≠ [] ∧ condListOk cs = true := by
      intro input rest cs h
      simp only [parse_condition_list, delimitedP] at h
      split at h
      · cases h
      · next r1 x1 heq1 =>
        split at h
        · cases h
        · next r2 v heq2 =>
          split at h
          · cases h
          · next r3 x3 heq3 =>
            cases h
            have hall := separated_list1_all _ _ (fun c => condOk c = true)
              (fun i r b hb => ih.1 i r b hb) (n + 1) _ _ _ heq2
            exact ⟨hall.1, (condListOk_iff _).mpr hall.2⟩
    constructor
    · intro input rest c h
      simp only [parse_condition, palt, pmap] at h
      split at h
      · next r heq =>
        cases h
        split at heq
        · cases heq
        · next r0 sc heq0 =>
          cases heq
          rfl
      · split at h
        · next r heq =>
          cases h
          split at heq
          · cases heq
          · next r0 sc heq0 =>
            cases heq
            rfl
        · split at h
          · next r heq =>
            cases h
            split at heq
            · cases heq
            · next r0 cs heq0 =>
              cases heq
              have hcs := preceded_some _ _ _ _ _ heq0
              obtain ⟨mid, x, hx1, hx2⟩ := hcs
              obtain ⟨mid2, x2, hx3, hx4⟩ := preceded_some _ _ _ _ _ hx2
              have hl := ih.2 _ _ _ hx4
              simp [condOk, hl.2, List.isEmpty_iff, hl.1]
          · next h1 =>
            split at h
            · cases h
            · next r0 cs heq0 =>
              cases h
              have hcs := preceded_some _ _ _ _ _ heq0
              obtain ⟨mid, x, hx1, hx2⟩ := hcs
              obtain ⟨mid2, x2, hx3, hx4⟩ := preceded_some _ _ _ _ _ hx2
              have hl := ih.2 _ _ _ hx4
              simp [condOk, hl.2, List.isEmpty_iff, hl.1]
    · exact hlist

theorem exprListOk_iff (es : List Expression) :
    exprListOk es = true ↔ ∀ e ∈ es, exprOk e = true := by
  induction es with
  | nil => simp [exprListOk]
  | cons e es ih => simp [exprListOk, ih]

theorem elsifListOk_iff (l : List (Condition × List Expression)) :
    elsifListOk l = true ↔ ∀ v ∈ l, condOk v.1 = true ∧ exprListOk v.2 = true := by
  induction l with
  | nil => simp [elsifListOk]
  | cons v l ih =>
    obtain ⟨c, es⟩ := v
    simp [elsifListOk, ih, and_assoc]

theorem popt_inv (p : P α) (input rest : Str) (ob : Option α)
    (h : popt p input = some (rest, ob)) :
    (∃ a, ob = some a ∧ p input = some (rest, a)) ∨ (ob = none ∧ rest = input) := by
  simp only [popt] at h
  split at h
  · next r a heq =>
    cases h
    exact Or.inl ⟨a, rfl, heq⟩
  · cases h
    exact Or.inr ⟨rfl, rfl⟩

theorem parse_expr_ok :
    ∀ fuel, (∀ t input rest v, simple_if t fuel input = some (rest, v) →
        condOk v.1 = true ∧ exprListOk v.2 = true) ∧
      (∀ input rest i, parse_if fuel input = some (rest, i) → exprOk (.ifE i) = true) ∧
      (∀ input rest e, parse_expression fuel input = some (rest, e) → exprOk e = true) ∧
      (∀ input rest es, parse_expression_list fuel input = some (rest, es) →
        exprListOk es = true) := by
  intro fuel
  induction fuel with
  | zero =>
    refine ⟨fun t input rest v h => ?_, fun input rest i h => ?_,
      fun input rest e h => ?_, fun input rest es h => ?_⟩
    · simp [simple_if] at h
    · simp [parse_if] at h
    · simp [parse_expression] at h
    · simp [parse_expression_list] at h
  | succ n ih =>
    have hsimple : ∀ t input rest v, simple_if t (n + 1) input = some (rest, v) →
        condOk v.1 = true ∧ exprListOk v.2 = true := by
      intro t input rest v h
      simp only [simple_if, ppair] at h
      split at h
      · cases h
      · next r1 cnd heq1 =>
        split at h
        · cases h
        · next r2 es heq2 =>
          cases h
          constructor
          · obtain ⟨m1, x1, hx1, hx2⟩ := preceded_some _ _ _ _ _ heq1
            simp only [delimitedP] at hx2
            split at hx2
            · cases hx2
            · next ra xa heqa =>
              split at hx2
              · cases hx2
              · next rb xb heqb =>
                split at hx2
                · cases hx2
                · next rc xc heqc =>
                  cases hx2
                  exact (parse_condition_ok (n + 1)).1 _ _ _ heqb
          · simp only [delimitedP] at heq2
            split at heq2
            · cases heq2
            · next ra xa heqa =>
              split at heq2
              · cases heq2
              · next rb xb heqb =>
                split at heq2
                · cases heq2
                · next rc xc heqc =>
                  cases heq2
                  exact ih.2.2.2 _ _ _ heqb
    have hif : ∀ input rest i, parse_if (n + 1) input = some (rest, i) →
        exprOk (.ifE i) = true := by
      intro input rest i h
      simp only [parse_if] at h
      split at h
      · cases h
      · next r0 cnd es heq0 =>
        split at h
        · cases h
        · next r1 eifs heq1 =>
          split at h
          · cases h
          · next r2 ob heq2 =>
            cases h
            have h0 := ih.1 _ _ _ _ heq0
            have helsif : ∀ v ∈ eifs, condOk v.1 = true ∧ exprListOk v.2 = true := by
              refine many0F_all _ (fun v => condOk v.1 = true ∧ exprListOk v.2 = true)
                ?_ _ _ _ _ heq1
              intro i' r' b' hb'
              obtain ⟨m, x, hx1, hx2⟩ := preceded_some _ _ _ _ _ hb'
              exact ih.1 _ _ _ _ hx2
            have helse : exprListOk (ob.getD []) = true := by
              rcases popt_inv _ _ _ _ heq2 with ⟨a, hoa, heqa⟩ | ⟨hoa, hrest⟩
              · subst hoa
                obtain ⟨m, x, hx1, hx2⟩ := preceded_some _ _ _ _ _ heqa
                simp only [delimitedP] at hx2
                split at hx2
                · cases hx2
                · next ra xa heqa2 =>
                  split at hx2
                  · cases hx2
                  · next rb xb heqb =>
                    split at hx2
                    · cases hx2
                    · next rc xc heqc =>
                      cases hx2
                      simpa using ih.2.2.2 _ _ _ heqb
              · subst hoa
                simp [exprListOk]
            have hrw : exprOk (.ifE (.mk cnd es eifs (ob.getD []))) =
                (condOk cnd && exprListOk es && elsifListOk eifs &&
                  exprListOk (ob.getD [])) := rfl
            rw [hrw]
            have h1 := h0.1
            have h2 := h0.2
            simp only [If.condition, If.expressions] at h1 h2
            simp [h1, h2, helse, (elsifListOk_iff _).mpr helsif]
    have hexpr : ∀ input rest e, parse_expression (n + 1) input = some (rest, e) →
        exprOk e = true := by
      intro input rest e h
      simp only [parse_expression] at h
      obtain ⟨m, x, hx1, hx2⟩ := preceded_some _ _ _ _ _ h
      simp only [palt, pmap] at hx2
      split at hx2
      · next r heq =>
        cases hx2
        split at heq
        · cases heq
        · cases heq
          rfl
      · split at hx2
        · next r heq =>
          cases hx2
          split at heq
          · cases heq
          · next r0 i0 heq0 =>
            cases heq
            exact ih.2.1 _ _ _ heq0
        · split at hx2
          · next r heq =>
            cases hx2
            split at heq
            · cases heq
            · cases heq
              rfl
          · split at hx2
            · next r heq =>
              cases hx2
              split at heq
              · cases heq
              · cases heq
                rfl
            · split at hx2
              · next r heq =>
                cases hx2
                split at heq
                · cases heq
                · cases heq
                  rfl
              · simp only [pvalue] at hx2
                split at hx2
                · next r heq =>
                  cases hx2
                  split at heq
                  · cases heq
                  · cases heq
                    rfl
                · split at hx2
                  · next r heq =>
                    cases hx2
                    split at heq
                    · cases heq
                    · cases heq
                      rfl
                  · split at hx2
                    · next r heq =>
                      cases hx2
                      split at heq
                      · cases heq
                      · cases heq
                        rfl
                    · split at hx2
                      · cases hx2
                      · next r0 f0 heq0 =>
                        cases hx2
                        rfl
    refine ⟨hsimple, fun input rest i h => hif input rest i h, hexpr, ?_⟩
    intro input rest es h
    simp only [parse_expression_list] at h
    exact (exprListOk_iff _).mpr
      (many0F_all _ (fun e => exprOk e = true) (fun i r b hb => ih.2.2.1 _ _ _ hb) _ _ _ _ h)

/-! ### Concrete-input computation lemmas -/

theorem ptag_self (t rest : Str) : ptag t (t ++ rest) = some (rest, t) := by
  simp only [ptag]
  rw [if_pos, List.drop_left]
  exact List.isPrefixOf_iff_prefix.mpr (List.prefix_append t rest)

theorem ptag_head_ne (a : Char) (as : Str) (b : Char) (bs : Str) (hab : a ≠ b) :
    ptag (a :: as) (b :: bs) = none := by
  simp only [ptag]
  rw [if_neg]
  intro hpre
  have hx := List.isPrefixOf_iff_prefix.mp hpre
  obtain ⟨t, ht⟩ := hx
  simp only [List.cons_append] at ht
  injection ht with h1 h2
  exact hab h1

theorem ptag_nil_ne (a : Char) (as : Str) : ptag (a :: as) [] = none := by
  simp only [ptag]
  rw [if_neg]
  intro hpre
  have := List.isPrefixOf_iff_prefix.mp hpre
  obtain ⟨t, ht⟩ := this
  cases ht

theorem pchar_self (c : Char) (rest : Str) : pchar c (c :: rest) = some (rest, c) := by
  simp [pchar]

theorem wsChar_space : wsChar ' ' = true := rfl

theorem ms0_nonws (c : Char) (l : Str) (hc : wsChar c = false) :
    multispace0 (c :: l) = some (c :: l, []) := by
  simp [multispace0, take_whileP, List.takeWhile_cons, hc]

theorem ms0_nil : multispace0 [] = some ([], []) := rfl

theorem ms0_one_space (c : Char) (l : Str) (hc : wsChar c = false) :
    multispace0 (' ' :: c :: l) = some (c :: l, [' ']) := by
  simp [multispace0, take_whileP, List.takeWhile_cons, hc, wsChar_space]

theorem ms1_one_space (c : Char) (l : Str) (hc : wsChar c = false) :
    multispace1 (' ' :: c :: l) = some (c :: l, [' ']) := by
  simp [multispace1, pverify, ms0_one_space c l hc]

theorem simple_if_head_ne (a : Char) (as : Str) (b : Char) (bs : Str) (hab : a ≠ b) :
    ∀ g, simple_if (a :: as) g (b :: bs) = none := by
  intro g
  cases g with
  | zero => rfl
  | succ n =>
    simp [simple_if, ppair, preceded, ptag_head_ne a as b bs hab]

theorem simple_if_nil (t : Str) (a : Char) (as : Str) (ht : t = a :: as) :
    ∀ g, simple_if t g [] = none := by
  intro g
  cases g with
  | zero => rfl
  | succ n =>
    subst ht
    simp [simple_if, ppair, preceded, ptag_nil_ne]

theorem parse_if_head_ne (b : Char) (bs : Str) (hb : b ≠ 'i') :
    ∀ g, parse_if g (b :: bs) = none := by
  intro g
  cases g with
  | zero => rfl
  | succ n =>
    have h : simple_if (str ("if")) n (b :: bs) = none := by
      have he : str ("if") = 'i' :: ['f'] := rfl
      rw [he]
      exact simple_if_head_ne 'i' ['f'] b bs (fun hh => hb hh.symm) n
    simp [parse_if, h]

theorem parse_string_condition_clause (xs r : Str) (hxs : ∀ x ∈ xs, x ≠ '\\' ∧ x ≠ '"') :
    parse_string_condition
      (':' :: 'i' :: 's' :: ' ' :: '"' :: 'h' :: '"' :: ' ' :: '"' :: (xs ++ '"' :: r)) =
      some (r, { comparison_type := .is_, source := str ("h"), value := xs }) := by
  have hps1 : parse_string ('"' :: 'h' :: '"' :: (' ' :: '"' :: (xs ++ '"' :: r))) =
      some (' ' :: '"' :: (xs ++ '"' :: r), str ("h")) :=
    parse_string_plain (str ("h")) (' ' :: '"' :: (xs ++ '"' :: r)) (by decide)
  have hps2 : parse_string ('"' :: (xs ++ '"' :: r)) = some (r, xs) :=
    parse_string_plain xs r hxs
  simp [parse_string_condition, parse_string_comparison_type, palt, pmap, ptag,
    List.isPrefixOf, str, preceded, multispace1, multispace0, take_whileP, pverify,
    List.takeWhile_cons, wsChar, hps1, hps2]

theorem parse_condition_clause (g : Nat) (xs r : Str)
    (hxs : ∀ x ∈ xs, x ≠ '\\' ∧ x ≠ '"') :
    parse_condition (g + 1)
      ('h' :: 'e' :: 'a' :: 'd' :: 'e' :: 'r' :: ' ' :: ':' :: 'i' :: 's' :: ' ' :: '"' ::
        'h' :: '"' :: ' ' :: '"' :: (xs ++ '"' :: r)) =
      some (r, .header { comparison_type := .is_, source := str ("h"), value := xs }) := by
  have hsc := parse_string_condition_clause xs r hxs
  simp [parse_condition, palt, pmap, preceded, ptag, List.isPrefixOf, str, multispace1,
    multispace0, take_whileP, pverify, List.takeWhile_cons, wsChar, hsc]

theorem parse_expression_keep (g : Nat) (rest : Str) :
    parse_expression (g + 1) (' ' :: 'k' :: 'e' :: 'e' :: 'p' :: ';' :: rest) =
      some (rest, .keep) := by
  have hif := parse_if_head_ne 'k' ('e' :: 'e' :: 'p' :: ';' :: rest) (by decide) g
  simp [parse_expression, palt, pmap, pvalue, preceded, ptag, List.isPrefixOf, str,
    multispace0, take_whileP, List.takeWhile_cons, wsChar, hif, parse_require,
    flag_command, delimitedP, ppair]

theorem parse_expression_rbrace (g : Nat) (l : Str) :
    parse_expression (g + 1) (' ' :: rbrace :: l) = none := by
  have hif := parse_if_head_ne rbrace l (by decide) g
  have hws : wsChar rbrace = false := by decide
  have h1 : ptag (str ("require ")) (rbrace :: l) = none := ptag_head_ne _ _ _ _ (by decide)
  have h2 : ptag (str ("addflag")) (rbrace :: l) = none := ptag_head_ne _ _ _ _ (by decide)
  have h3 : ptag (str ("removeflag")) (rbrace :: l) = none := ptag_head_ne _ _ _ _ (by decide)
  have h4 : ptag (str ("setflag")) (rbrace :: l) = none := ptag_head_ne _ _ _ _ (by decide)
  have h5 : ptag (str ("discard;")) (rbrace :: l) = none := ptag_head_ne _ _ _ _ (by decide)
  have h6 : ptag (str ("keep;")) (rbrace :: l) = none := ptag_head_ne _ _ _ _ (by decide)
  have h7 : ptag (str ("stop;")) (rbrace :: l) = none := ptag_head_ne _ _ _ _ (by decide)
  have h8 : ptag (str ("fileinto")) (rbrace :: l) = none := ptag_head_ne _ _ _ _ (by decide)
  simp [parse_expression, palt, pmap, pvalue, preceded,
    multispace0, take_whileP, List.takeWhile_cons, wsChar_space, hws, hif, parse_require,
    flag_command, delimitedP, ppair, h1, h2, h3, h4, h5, h6, h7, h8]

theorem parse_expression_list_keep (g : Nat) (rest : Str) :
    parse_expression_list (g + 2)
      (' ' :: 'k' :: 'e' :: 'e' :: 'p' :: ';' :: ' ' :: rbrace :: rest) =
      some (' ' :: rbrace :: rest, [.keep]) := by
  have h1 : parse_expression (g + 1)
      (' ' :: 'k' :: 'e' :: 'e' :: 'p' :: ';' :: (' ' :: rbrace :: rest)) =
      some (' ' :: rbrace :: rest, .keep) := parse_expression_keep g (' ' :: rbrace :: rest)
  have h2 := parse_expression_rbrace g rest
  simp only [parse_expression_list]
  rw [many0F_step _ _ _ _ _ h1 (by simp)]
  rw [many0F_done _ _ _ h2]

theorem simple_if_clause (tg : Str) (g : Nat) (xs rest : Str)
    (hxs : ∀ x ∈ xs, x ≠ '\\' ∧ x ≠ '"') :
    simple_if tg (g + 3)
      (tg ++ (' ' :: 'h' :: 'e' :: 'a' :: 'd' :: 'e' :: 'r' :: ' ' :: ':' :: 'i' :: 's' ::
        ' ' :: '"' :: 'h' :: '"' :: ' ' :: '"' ::
        (xs ++ '"' :: ' ' :: lbrace :: ' ' :: 'k' :: 'e' :: 'e' :: 'p' :: ';' :: ' ' ::
          rbrace :: rest))) =
      some (rest,
        (.header { comparison_type := .is_, source := str ("h"), value := xs }, [.keep])) := by
  have e3 : g + 3 = (g + 2) + 1 := rfl
  rw [e3]
  have htag := ptag_self tg (' ' :: 'h' :: 'e' :: 'a' :: 'd' :: 'e' :: 'r' :: ' ' :: ':' ::
    'i' :: 's' :: ' ' :: '"' :: 'h' :: '"' :: ' ' :: '"' ::
    (xs ++ '"' :: ' ' :: lbrace :: ' ' :: 'k' :: 'e' :: 'e' :: 'p' :: ';' :: ' ' ::
      rbrace :: rest))
  have hcnd : parse_condition ((g + 2) + 1)
      ('h' :: 'e' :: 'a' :: 'd' :: 'e' :: 'r' :: ' ' :: ':' :: 'i' :: 's' :: ' ' :: '"' ::
        'h' :: '"' :: ' ' :: '"' ::
        (xs ++ '"' :: (' ' :: lbrace :: ' ' :: 'k' :: 'e' :: 'e' :: 'p' :: ';' :: ' ' ::
          rbrace :: rest))) =
      some (' ' :: lbrace :: ' ' :: 'k' :: 'e' :: 'e' :: 'p' :: ';' :: ' ' :: rbrace :: rest,
        .header { comparison_type := .is_, source := str ("h"), value := xs }) :=
    parse_condition_clause (g + 2) xs _ hxs
  have hwsl : wsChar lbrace = false := by decide
  have hmsl : multispace1 (' ' :: lbrace :: (' ' :: 'k' :: 'e' :: 'e' :: 'p' :: ';' :: ' ' ::
      rbrace :: rest)) =
      some (lbrace :: (' ' :: 'k' :: 'e' :: 'e' :: 'p' :: ';' :: ' ' :: rbrace :: rest),
        [' ']) := ms1_one_space _ _ hwsl
  have hlist := parse_expression_list_keep g rest
  have hwsr : wsChar rbrace = false := by decide
  have hms0 : multispace0 (' ' :: rbrace :: rest) = some (rbrace :: rest, [' ']) :=
    ms0_one_space _ _ hwsr
  have hmsh : multispace1 (' ' :: 'h' :: 'e' :: 'a' :: 'd' :: 'e' :: 'r' :: ' ' :: ':' ::
      'i' :: 's' :: ' ' :: '"' :: 'h' :: '"' :: ' ' :: '"' ::
      (xs ++ '"' :: ' ' :: lbrace :: ' ' :: 'k' :: 'e' :: 'e' :: 'p' :: ';' :: ' ' ::
        rbrace :: rest)) =
      some ('h' :: 'e' :: 'a' :: 'd' :: 'e' :: 'r' :: ' ' :: ':' :: 'i' :: 's' :: ' ' ::
        '"' :: 'h' :: '"' :: ' ' :: '"' ::
        (xs ++ '"' :: ' ' :: lbrace :: ' ' :: 'k' :: 'e' :: 'e' :: 'p' :: ';' :: ' ' ::
          rbrace :: rest), [' ']) := ms1_one_space _ _ (by decide)
  simp [simple_if, ppair, preceded, delimitedP, htag, hcnd, hmsl, hlist, hms0, hmsh,
    pchar_self]

theorem elsifVal_def (i : Nat) : elsifVal i =
    (.header { comparison_type := .is_, source := str ("h"), value := List.replicate i 'x' },
      [.keep]) := rfl

theorem elsif_loop (g : Nat) : ∀ count start k, count < k →
    many0F (preceded multispace0 (simple_if (str ("elsif")) (g + 3))) k
      (elsifChain start count) = some ([], elsifVals start count) := by
  intro count
  induction count with
  | zero =>
    intro start k hk
    obtain ⟨k', rfl⟩ : ∃ k', k = k' + 1 := ⟨k - 1, by omega⟩
    have hsi : simple_if (str ("elsif")) (g + 3) [] = none :=
      simple_if_nil _ 'e' (str ("lsif")) rfl _
    have hp : preceded multispace0 (simple_if (str ("elsif")) (g + 3)) [] = none := by
      simp [preceded, ms0_nil, hsi]
    simp [elsifChain, elsifVals, many0F_done _ _ _ hp]
  | succ c ih =>
    intro start k hk
    obtain ⟨k', rfl⟩ : ∃ k', k = k' + 1 := ⟨k - 1, by omega⟩
    have edec : elsifChain start (c + 1) =
        ' ' :: 'e' :: 'l' :: 's' :: 'i' :: 'f' :: (' ' :: 'h' :: 'e' :: 'a' :: 'd' :: 'e' ::
          'r' :: ' ' :: ':' :: 'i' :: 's' :: ' ' :: '"' :: 'h' :: '"' :: ' ' :: '"' ::
          (List.replicate start 'x' ++ '"' :: ' ' :: lbrace :: ' ' :: 'k' :: 'e' :: 'e' ::
            'p' :: ';' :: ' ' :: rbrace :: elsifChain (start + 1) c)) := by
      simp [elsifChain, elsifClause, List.append_assoc, str]
      decide
    have hsi : simple_if (str ("elsif")) (g + 3)
        ('e' :: 'l' :: 's' :: 'i' :: 'f' :: (' ' :: 'h' :: 'e' :: 'a' :: 'd' :: 'e' ::
          'r' :: ' ' :: ':' :: 'i' :: 's' :: ' ' :: '"' :: 'h' :: '"' :: ' ' :: '"' ::
          (List.replicate start 'x' ++ '"' :: ' ' :: lbrace :: ' ' :: 'k' :: 'e' :: 'e' ::
            'p' :: ';' :: ' ' :: rbrace :: elsifChain (start + 1) c))) =
        some (elsifChain (start + 1) c, elsifVal start) := by
      have hx : ∀ x ∈ List.replicate start 'x', x ≠ '\\' ∧ x ≠ '"' := by
        intro x hx
        have := List.eq_of_mem_replicate hx
        subst this
        decide
      have h := simple_if_clause (str ("elsif")) g (List.replicate start 'x')
        (elsifChain (start + 1) c) hx
      rw [elsifVal_def]
      exact h
    have hp : preceded multispace0 (simple_if (str ("elsif")) (g + 3))
        (elsifChain start (c + 1)) = some (elsifChain (start + 1) c, elsifVal start) := by
      rw [edec]
      have hms : multispace0 (' ' :: 'e' :: 'l' :: 's' :: 'i' :: 'f' :: (' ' :: 'h' :: 'e' ::
          'a' :: 'd' :: 'e' :: 'r' :: ' ' :: ':' :: 'i' :: 's' :: ' ' :: '"' :: 'h' :: '"' ::
          ' ' :: '"' :: (List.replicate start 'x' ++ '"' :: ' ' :: lbrace :: ' ' :: 'k' ::
            'e' :: 'e' :: 'p' :: ';' :: ' ' :: rbrace :: elsifChain (start + 1) c))) =
          some ('e' :: 'l' :: 's' :: 'i' :: 'f' :: (' ' :: 'h' :: 'e' :: 'a' :: 'd' :: 'e' ::
            'r' :: ' ' :: ':' :: 'i' :: 's' :: ' ' :: '"' :: 'h' :: '"' :: ' ' :: '"' ::
            (List.replicate start 'x' ++ '"' :: ' ' :: lbrace :: ' ' :: 'k' :: 'e' :: 'e' ::
              'p' :: ';' :: ' ' :: rbrace :: elsifChain (start + 1) c)), [' ']) :=
        ms0_one_space _ _ (by decide)
      simp [preceded, hms, hsi]
    have hlen : (elsifChain (start + 1) c).length ≠ (elsifChain start (c + 1)).length := by
      rw [edec]
      simp [List.length_append]
      omega
    rw [many0F_step _ _ _ _ _ hp hlen]
    rw [ih (start + 1) k' (by omega)]
    simp [elsifVals]

theorem elsifVals_eq_map : ∀ count start,
    elsifVals start count = (List.range count).map (fun j => elsifVal (start + j)) := by
  intro count
  induction count with
  | zero => intro start; simp [elsifVals]
  | succ c ih =>
    intro start
    rw [List.range_succ_eq_map]
    simp only [elsifVals, List.map_cons, List.map_map, Nat.add_zero]
    congr 1
    rw [ih (start + 1)]
    apply List.map_congr_left
    intro j hj
    simp only [Function.comp]
    congr 1
    omega

theorem parse_if_genIf (n g : Nat) :
    parse_if (n + g + 4) (genIfInput n) =
      some ([],
        .mk (.header { comparison_type := .is_, source := str ("h"), value := str ("v") })
          [.keep] (elsifVals 0 n) []) := by
  have e4 : n + g + 4 = (n + g + 3) + 1 := rfl
  rw [e4]
  have hsif : simple_if (str ("if")) (n + g + 3) (genIfInput n) =
      some (elsifChain 0 n,
        (.header { comparison_type := .is_, source := str ("h"), value := str ("v") },
          [.keep])) := by
    have h := simple_if_clause (str ("if")) (n + g) (str ("v")) (elsifChain 0 n) (by decide)
    exact h
  have hloop := elsif_loop (n + g) n 0 ((n + g + 3) + 1) (by omega)
  have hptag : ptag (str ("else")) ([] : Str) = none := ptag_nil_ne 'e' (str ("lse"))
  have hopt : popt (preceded (delimitedP multispace0 (ptag (str ("else"))) multispace0)
      (delimitedP (pchar lbrace) (parse_expression_list (n + g + 3))
        (preceded multispace0 (pchar rbrace)))) ([] : Str) = some ([], none) := by
    simp [popt, preceded, delimitedP, ms0_nil, hptag]
  simp only [parse_if, hsif, hloop, hopt]
  rfl

/-! ### Client-side lemmas: lines, UTF-8, literal lengths -/

theorem utf8Decode_cons_lt (b : Nat) (rest : List Nat) (hb : b < 128) :
    utf8Decode (b :: rest) = (utf8Decode rest).map (fun cps => b :: cps) := by
  rw [utf8Decode.eq_def]
  cases rest with
  | nil => simp [hb]
  | cons c r => simp [hb]

theorem utf8Decode_ascii : ∀ l : List Nat, (∀ b ∈ l, b < 128) → utf8Decode l = some l := by
  intro l
  induction l with
  | nil => intro _; rfl
  | cons b rest ih =>
    intro h
    have hb : b < 128 := h b (by simp)
    have hr := ih (fun x hx => h x (by simp [hx]))
    rw [utf8Decode_cons_lt b rest hb, hr]
    rfl

theorem splitLine_append (xs rest : List Nat) (h : (10 : Nat) ∉ xs) :
    splitLine (xs ++ 10 :: rest) = (xs ++ [10], rest) := by
  induction xs with
  | nil => simp [splitLine]
  | cons b bs ih =>
    have hb : ¬ b = 10 := by
      intro hh
      exact h (by simp [hh])
    simp only [List.cons_append, splitLine, hb, if_false]
    simp [List.append_eq, ih (fun hh => h (by simp [hh]))]

theorem readLine_append (xs rest : List Nat) (h10 : (10 : Nat) ∉ xs)
    (hA : ∀ b ∈ xs, b < 128) :
    readLine (xs ++ 10 :: rest) = some (xs ++ [10], rest) := by
  have hd : utf8Decode (xs ++ [10]) = some (xs ++ [10]) := by
    apply utf8Decode_ascii
    intro b hb
    rcases List.mem_append.mp hb with h | h
    · exact hA b h
    · simp at h
      omega
  simp [readLine, splitLine_append xs rest h10, hd]

theorem parseUsize_mem (ds : List Nat) (n : Nat) (h : parseUsize ds = some n) :
    ∀ b ∈ ds, b = 43 ∨ (48 ≤ b ∧ b ≤ 57) := by
  intro b hb
  simp only [parseUsize] at h
  split at h
  · next hhead =>
    split at h
    · next hcond =>
      cases ds with
      | nil => simp at hhead
      | cons d t =>
        simp only [List.head?_cons, Option.some_inj] at hhead
        subst hhead
        rcases List.mem_cons.mp hb with rfl | hbt
        · exact Or.inl rfl
        · right
          have hall := hcond.2
          simp only [List.tail_cons] at hall
          have hx := List.all_eq_true.mp hall b hbt
          simpa using hx
    · cases h
  · next hhead =>
    split at h
    · next hcond =>
      right
      have hx := List.all_eq_true.mp hcond.2 b hb
      simpa using hx
    · cases h

theorem foldl_digits_reverse : ∀ (L : List Nat) (acc : Nat),
    List.foldl (fun a d => a * 10 + d) acc L.reverse =
      acc * 10 ^ L.length + Nat.ofDigits 10 L := by
  intro L
  induction L with
  | nil => intro acc; simp [Nat.ofDigits]
  | cons d L ih =>
    intro acc
    simp only [List.reverse_cons, List.foldl_append, List.foldl_cons, List.foldl_nil]
    rw [ih acc]
    simp only [Nat.ofDigits_cons, List.length_cons, pow_succ]
    ring

theorem parseUsize_numBytes (n : Nat) : parseUsize (numBytes n) = some n := by
  by_cases hn : n = 0
  · subst hn
    rfl
  · have hne : Nat.digits 10 n ≠ [] := Nat.digits_ne_nil_iff_ne_zero.mpr hn
    have hmem : ∀ b ∈ numBytes n, 48 ≤ b ∧ b ≤ 57 := by
      intro b hb
      simp only [numBytes, if_neg hn, List.mem_reverse, List.mem_map] at hb
      obtain ⟨d, hd, rfl⟩ := hb
      have hlt := Nat.digits_lt_base (by norm_num) hd
      omega
    have hnil : numBytes n ≠ [] := by
      simp only [numBytes, if_neg hn]
      simp [hne]
    have hhead : ¬ (numBytes n).head? = some (43 : Nat) := by
      intro hcon
      cases hL : numBytes n with
      | nil => rw [hL] at hcon; cases hcon
      | cons d t =>
        rw [hL] at hcon
        simp only [List.head?_cons, Option.some_inj] at hcon
        have := (hmem d (by rw [hL]; simp)).1
        omega
    have hval : List.foldl (fun acc c => acc * 10 + (c - 48)) 0 (numBytes n) = n := by
      simp only [numBytes, if_neg hn]
      rw [← List.map_reverse, List.foldl_map]
      simp only [Nat.add_sub_cancel]
      rw [foldl_digits_reverse]
      simp [Nat.ofDigits_digits]
    simp only [parseUsize, if_neg hhead]
    rw [if_pos]
    · rw [hval]
    · refine ⟨hnil, ?_⟩
      rw [List.all_eq_true]
      intro b hb
      have := hmem b hb
      simp only [decide_eq_true_eq]
      omega

theorem trimB_literal_header (ds : List Nat) :
    trimB (123 :: (ds ++ [125, 13, 10])) = 123 :: (ds ++ [125]) := by
  have h123 : isWSb 123 = false := by decide
  have h125 : isWSb 125 = false := by decide
  have h10 : isWSb 10 = true := by decide
  have h13 : isWSb 13 = true := by decide
  simp [trimB, List.dropWhile_cons, h123, h125, h10, h13, List.reverse_append]

theorem getScript_literal (script ds payload status extra : List Nat)
    (hds : parseUsize ds = some payload.length)
    (hs10 : (10 : Nat) ∉ status) (hsA : ∀ b ∈ status, b < 128) :
    getScript script (123 :: (ds ++ 125 :: 13 :: 10 ::
        (payload ++ 13 :: 10 :: (status ++ 13 :: 10 :: extra)))) =
      (if isPrefixB (strB ("OK")) (upperB (trimB (status ++ [13, 10]))) = true then
        Except.ok (utf8Lossy payload)
      else Except.error (.serverError (upperB (trimB (status ++ [13, 10]))))) := by
  have hdsb : ∀ b ∈ ds, b = 43 ∨ (48 ≤ b ∧ b ≤ 57) := parseUsize_mem ds _ hds
  have e1 : 123 :: (ds ++ 125 :: 13 :: 10 ::
        (payload ++ 13 :: 10 :: (status ++ 13 :: 10 :: extra))) =
      (123 :: (ds ++ [125, 13])) ++ 10 ::
        (payload ++ 13 :: 10 :: (status ++ 13 :: 10 :: extra)) := by
    simp
  have hrl1 : readLine (123 :: (ds ++ 125 :: 13 :: 10 ::
        (payload ++ 13 :: 10 :: (status ++ 13 :: 10 :: extra)))) =
      some ((123 :: (ds ++ [125, 13])) ++ [10],
        payload ++ 13 :: 10 :: (status ++ 13 :: 10 :: extra)) := by
    rw [e1]
    apply readLine_append
    · intro hcon
      rcases List.mem_cons.mp hcon with hh | hh
      · omega
      · rcases List.mem_append.mp hh with hh2 | hh2
        · rcases hdsb 10 hh2 with hh3 | hh3 <;> omega
        · simp at hh2
    · intro b hb
      rcases List.mem_cons.mp hb with rfl | hh
      · omega
      · rcases List.mem_append.mp hh with hh2 | hh2
        · rcases hdsb b hh2 with hh3 | hh3 <;> omega
        · simp at hh2
          rcases hh2 with hh3 | hh3 <;> subst hh3 <;> omega
  have e2 : (123 :: (ds ++ [125, 13])) ++ [10] = 123 :: (ds ++ [125, 13, 10]) := by simp
  have htrim : trimB ((123 :: (ds ++ [125, 13])) ++ [10]) = 123 :: (ds ++ [125]) := by
    rw [e2]
    exact trimB_literal_header ds
  have hpre : isPrefixB (strB ("\x7b")) (123 :: (ds ++ [125])) = true := by
    simp [isPrefixB, strB, List.isPrefixOf]
  have hpll : parse_literal_length (123 :: (ds ++ [125])) = some payload.length := by
    have hh : (123 :: (ds ++ [125])).head? = some 123 := rfl
    have hl : (123 :: (ds ++ [125])).getLast? = some 125 := by
      rw [show (123 : Nat) :: (ds ++ [125]) = (123 :: ds) ++ [125] by simp]
      exact List.getLast?_concat _
    have hmid : ((123 :: (ds ++ [125])).drop 1).dropLast = ds := by
      simp [List.dropLast_concat]
    simp [parse_literal_length, hh, hl, hmid, hds]
  have hs1len : payload.length + 2 ≤
      (payload ++ 13 :: 10 :: (status ++ 13 :: 10 :: extra)).length := by
    simp [List.length_append]
  have htake : (payload ++ 13 :: 10 :: (status ++ 13 :: 10 :: extra)).take payload.length =
      payload := by
    rw [List.take_left]
  have hdrop : (payload ++ 13 :: 10 :: (status ++ 13 :: 10 :: extra)).drop
      (payload.length + 2) = status ++ 13 :: 10 :: extra := by
    rw [show payload ++ 13 :: 10 :: (status ++ 13 :: 10 :: extra) =
      (payload ++ [13, 10]) ++ (status ++ 13 :: 10 :: extra) by simp]
    rw [show payload.length + 2 = (payload ++ [13, 10]).length by simp]
    rw [List.drop_left]
  have hrl2 : readLine (status ++ 13 :: 10 :: extra) =
      some ((status ++ [13]) ++ [10], extra) := by
    rw [show status ++ 13 :: 10 :: extra = (status ++ [13]) ++ 10 :: extra by simp]
    apply readLine_append
    · intro hcon
      rcases List.mem_append.mp hcon with hh | hh
      · exact hs10 hh
      · simp at hh
    · intro b hb
      rcases List.mem_append.mp hb with hh | hh
      · exact hsA b hh
      · simp at hh
        omega
  have e3 : (status ++ [13]) ++ [10] = status ++ [13, 10] := by simp
  simp only [getScript, hrl1, htrim, hpre, if_true, hpll, hs1len, if_pos, htake, hdrop,
    hrl2, e3]

theorem escaped_backslash (rest : Str) :
    parse_escaped_char ('\\' :: '\\' :: rest) = some (rest, '\\') := by
  simp [parse_escaped_char, preceded, pchar, palt, pvalue]

theorem escaped_quote (rest : Str) :
    parse_escaped_char ('\\' :: '"' :: rest) = some (rest, '"') := by
  simp [parse_escaped_char, preceded, pchar, palt, pvalue]

theorem escaped_other (c : Char) (rest : Str) (h1 : c ≠ '\\') (h2 : c ≠ '"') :
    parse_escaped_char ('\\' :: c :: rest) = none := by
  simp [parse_escaped_char, preceded, pchar, palt, pvalue, h1, h2]

theorem parse_string_bad_escape (c : Char) (h1 : c ≠ '\\') (h2 : c ≠ '"') :
    parse_string ['"', '\\', c, '"'] = none := by
  have hpart : parse_string_part ['\\', c, '"'] = none := part_on_bad_escape c ['"'] h1 h2
  have hfold : fold_many0 parse_string_part push_fragment 5 [] ['\\', c, '"'] =
      some (['\\', c, '"'], []) := by
    rw [show (5 : Nat) = 4 + 1 from rfl]
    exact fold_many0_done _ _ 4 [] _ hpart
  simp [parse_string, delimitedP, pchar, hfold]

theorem parse_condition_rparen : ∀ n, parse_condition n [')'] = none := by
  intro n
  cases n with
  | zero => rfl
  | succ m =>
    have h1 : ptag (str ("header")) [')'] = none := ptag_head_ne _ _ _ _ (by decide)
    have h2 : ptag (str ("address")) [')'] = none := ptag_head_ne _ _ _ _ (by decide)
    have h3 : ptag (str ("allof")) [')'] = none := ptag_head_ne _ _ _ _ (by decide)
    have h4 : ptag (str ("anyof")) [')'] = none := ptag_head_ne _ _ _ _ (by decide)
    simp [parse_condition, palt, pmap, preceded, h1, h2, h3, h4]

theorem parse_condition_list_empty_parens : ∀ n, parse_condition_list n (str ("()")) = none := by
  intro n
  cases n with
  | zero => rfl
  | succ m =>
    have hc : parse_condition m [')'] = none := parse_condition_rparen m
    have hws : wsChar ')' = false := by decide
    simp [parse_condition_list, delimitedP, preceded, pchar, separated_list1, str,
      ms0_nonws _ _ hws, hc]

theorem parse_if_no_else (fuel : Nat) (input rest : Str) (i : If)
    (h : parse_if fuel input = some (rest, i))
    (hno : ¬ (str ("else")) <:+: input) : i.else_block = [] := by
  cases fuel with
  | zero => simp [parse_if] at h
  | succ n =>
    simp only [parse_if] at h
    split at h
    · cases h
    · next r0 cnd es heq0 =>
      split at h
      · cases h
      · next r1 eifs heq1 =>
        split at h
        · cases h
        · next r2 ob heq2 =>
          cases h
          rcases popt_inv _ _ _ _ heq2 with ⟨a, hoa, heqa⟩ | ⟨hoa, _⟩
          · exfalso
            obtain ⟨mid, x, hx1, hx2⟩ := preceded_some _ _ _ _ _ heqa
            simp only [delimitedP] at hx1
            split at hx1
            · cases hx1
            · next ra xa heqa2 =>
              split at hx1
              · cases hx1
              · next rb xb heqb =>
                split at hx1
                · cases hx1
                · next rc xc heqc =>
                  have hp : (str ("else")) <+: ra := by
                    simp only [ptag] at heqb
                    split at heqb
                    · next hpre => exact List.isPrefixOf_iff_prefix.mp hpre
                    · cases heqb
                  have hsuf1 : ra <:+ r1 := suffixP_multispace0 _ _ _ heqa2
                  have hsuf2 : r1 <:+ r0 :=
                    suffixP_many0F _
                      (suffixP_preceded _ _ suffixP_multispace0 ((suffixP_expr n).1 _)) _ _ _ _
                      heq1
                  have hsuf3 : r0 <:+ input := (suffixP_expr n).1 _ _ _ _ heq0
                  exact hno ((hp.isInfix.trans hsuf1.isInfix).trans
                    (hsuf2.isInfix.trans hsuf3.isInfix))
          · subst hoa
            rfl

/-! ### Claim theorems -/

/-- Claim C1, counterexample: the input `"\a"` (quote, backslash, letter a,
quote) does not decode successfully keeping the backslash — `parse_string`
fails on it, refuting the claim that a backslash followed by any other
character is kept as a literal backslash in a successful decode. -/
theorem claim_C1_counterexample :
    parse_string (str ("\x22\\a\x22")) = none ∧
      ¬ parse_string (str ("\x22\\a\x22")) = some ([], str ("\\a")) := by
  constructor
  · rfl
  · intro h
    cases h

/-- Claim C1 (amended): the escaped-char decoder accepts exactly a
backslash followed by a backslash or a double quote, yielding the escaped
character; a backslash followed by any other character is rejected, and a
string literal containing such a sequence fails to parse (rather than
decoding to a literal backslash). -/
theorem claim_C1 :
    (∀ rest : Str, parse_escaped_char ('\\' :: '\\' :: rest) = some (rest, '\\')) ∧
    (∀ rest : Str, parse_escaped_char ('\\' :: '"' :: rest) = some (rest, '"')) ∧
    (∀ (c : Char) (rest : Str), c ≠ '\\' → c ≠ '"' →
      parse_escaped_char ('\\' :: c :: rest) = none) ∧
    (∀ c : Char, c ≠ '\\' → c ≠ '"' → parse_string ['"', '\\', c, '"'] = none) := by
  refine ⟨escaped_backslash, escaped_quote, ?_, ?_⟩
  · intro c rest h1 h2
    exact escaped_other c rest h1 h2
  · intro c h1 h2
    exact parse_string_bad_escape c h1 h2

/-- Witness for C1 at the concrete character `a`. -/
theorem claim_C1_witness :
    parse_escaped_char (str ("\\a")) = none ∧ parse_string (str ("\x22\\a\x22")) = none := by
  constructor
  · exact claim_C1.2.2.1 'a' [] (by decide) (by decide)
  · exact claim_C1.2.2.2 'a' (by decide) (by decide)

/-- Claim C2: decoding the quoted-escaped encoding of any string (every
backslash and double quote prefixed with a backslash, wrapped in double
quotes) succeeds, consumes the whole encoding, and returns exactly the
original string. -/
theorem claim_C2 : ∀ s : Str, parse_string ('"' :: escapeSieve s ++ ['"']) = some ([], s) :=
  fun s => parse_string_encode s []

/-- Claim C3: string arrays accept zero elements (`[]` and `[ ]` parse to
the empty list); `allof`/`anyof` condition lists reject `()` and accept
one or more comma-separated conditions in source order; consequently every
`AllOf`/`AnyOf` node in any parsed condition or expression list has a
non-empty condition list. -/
theorem claim_C3 :
    parse_string_array (str ("[]")) = some ([], []) ∧
    parse_string_array (str ("[ ]")) = some ([], []) ∧
    (∀ fuel, parse_condition_list fuel (str ("()")) = none) ∧
    parse_condition_list 60
        (str ("(header :is \x22a\x22 \x22b\x22, address :is \x22c\x22 \x22d\x22)")) =
      some ([], [.header { comparison_type := .is_, source := str ("a"), value := str ("b") },
        .address { comparison_type := .is_, source := str ("c"), value := str ("d") }]) ∧
    (∀ fuel input rest cs, parse_condition_list fuel input = some (rest, cs) → cs ≠ []) ∧
    (∀ fuel input rest c, parse_condition fuel input = some (rest, c) → condOk c = true) ∧
    (∀ fuel input rest es, parse_expression_list fuel input = some (rest, es) →
      exprListOk es = true) := by
  refine ⟨rfl, rfl, parse_condition_list_empty_parens, rfl, ?_, ?_, ?_⟩
  · intro fuel input rest cs h
    exact ((parse_condition_ok fuel).2 input rest cs h).1
  · intro fuel input rest c h
    exact (parse_condition_ok fuel).1 input rest c h
  · intro fuel input rest es h
    exact (parse_expr_ok fuel).2.2.2 input rest es h

/-- Witness for C3: the non-emptiness invariant applied to a concretely
parsed two-element condition list. -/
theorem claim_C3_witness :
    ([Condition.header { comparison_type := .is_, source := str ("a"), value := str ("b") },
      Condition.address { comparison_type := .is_, source := str ("c"), value := str ("d") }] :
        List Condition) ≠ [] :=
  claim_C3.2.2.2.2.1 60
    (str ("(header :is \x22a\x22 \x22b\x22, address :is \x22c\x22 \x22d\x22)")) []
    _ rfl

/-- Claim C4, counterexample: `parse_expression_list` succeeds on the
malformed script `garbage` while reporting the whole input as unconsumed
remainder — success does not imply an empty remainder. -/
theorem claim_C4_counterexample :
    parse_expression_list_top (str ("garbage")) = some (str ("garbage"), []) ∧
      str ("garbage") ≠ ([] : Str) := by
  constructor
  · rfl
  · intro h
    cases h

/-- Claim C4 (amended): whenever the whole-script parse succeeds, the
reported remainder is a suffix of the input positioned exactly at the
first point where no expression alternative matches; emptiness of the
remainder is a separate check the caller must make, not a consequence of
success. -/
theorem claim_C4 :
    ∀ fuel input rest es, parse_expression_list (fuel + 1) input = some (rest, es) →
      rest <:+ input ∧ parse_expression fuel rest = none := by
  intro fuel input rest es h
  simp only [parse_expression_list] at h
  have hl := many0F_last _ ((suffixP_expr fuel).2.2.1) _ _ _ _ h
  exact ⟨hl.2, hl.1⟩

/-- Witness for C4 at a concrete partially-consumable input. -/
theorem claim_C4_witness :
    (str (" x")) <:+ (str ("keep; x")) ∧ parse_expression 7 (str (" x")) = none :=
  claim_C4 7 (str ("keep; x")) (str (" x")) [.keep] rfl

/-- Claim C8: the flag-name match maps exactly the six well-known
backslash-prefixed names to their variants, case-sensitively; every other
string maps to `custom` holding the original text, and `parse_flags`
applies this map to each decoded raw string. -/
theorem claim_C8 :
    flagOf (str ("\\Seen")) = .seen ∧
    flagOf (str ("\\Flagged")) = .flagged ∧
    flagOf (str ("\\Answered")) = .answered ∧
    flagOf (str ("\\Deleted")) = .deleted ∧
    flagOf (str ("\\Draft")) = .draft ∧
    flagOf (str ("\\Recent")) = .recent ∧
    (∀ s : Str, s ≠ str ("\\Seen") → s ≠ str ("\\Flagged") → s ≠ str ("\\Answered") →
      s ≠ str ("\\Deleted") → s ≠ str ("\\Draft") → s ≠ str ("\\Recent") →
      flagOf s = .custom s) ∧
    (∀ input rest raw,
      palt (pmap parse_string (fun s => [s])) parse_string_array input = some (rest, raw) →
      parse_flags input = some (rest, raw.map flagOf)) ∧
    parse_flags (str ("\x22\\\\seen\x22")) = some ([], [.custom (str ("\\seen"))]) ∧
    parse_flags (str ("\x22\\\\Seen\x22")) = some ([], [.seen]) := by
  refine ⟨rfl, rfl, rfl, rfl, rfl, rfl, ?_, ?_, rfl, rfl⟩
  · intro s h1 h2 h3 h4 h5 h6
    simp [flagOf, h1, h2, h3, h4, h5, h6]
  · intro input rest raw h
    simp [parse_flags, h]

/-- Witness for C8: a case variant of a well-known name maps to `custom`. -/
theorem claim_C8_witness : flagOf (str ("\\seen")) = .custom (str ("\\seen")) :=
  claim_C8.2.2.2.2.2.2.1 (str ("\\seen")) (by decide) (by decide) (by decide) (by decide)
    (by decide) (by decide)

/-- Claim C9: for every `n`, parsing a generated `if` block with `n`
`elsif` clauses (value `x^i` in clause `i`) yields `else_ifs` listing the
clauses in source-index order `0, 1, …, n-1`, and `else_block = []`;
moreover, for arbitrary parsed `if` blocks, the `else_block` is empty
whenever the source contains no `else` token at all. -/
theorem claim_C9 :
    (∀ n g, parse_if (n + g + 4) (genIfInput n) =
      some ([], .mk
        (.header { comparison_type := .is_, source := str ("h"), value := str ("v") })
        [.keep]
        ((List.range n).map (fun i =>
          (.header ⟨.is_, str ("h"), List.replicate i 'x'⟩, [.keep])))
        [])) ∧
    (∀ fuel input rest i, parse_if fuel input = some (rest, i) →
      ¬ (str ("else")) <:+: input → i.else_block = []) := by
  constructor
  · intro n g
    have hmap : elsifVals 0 n = (List.range n).map (fun i =>
        ((Condition.header ⟨.is_, str ("h"), List.replicate i 'x'⟩), [Expression.keep])) := by
      rw [elsifVals_eq_map n 0]
      apply List.map_congr_left
      intro j hj
      rw [elsifVal_def]
      simp
    rw [parse_if_genIf n g, hmap]
  · intro fuel input rest i h hno
    exact parse_if_no_else fuel input rest i h hno

/-- Witness for C9: a concrete `if` block without `else` parses with an
empty `else_block`. -/
theorem claim_C9_witness :
    (If.mk (.header { comparison_type := .is_, source := str ("a"), value := str ("b") })
      [.keep] [] []).else_block = [] :=
  claim_C9.2 6 (str ("if header :is \x22a\x22 \x22b\x22 \x7b keep; \x7d")) []
    (.mk (.header { comparison_type := .is_, source := str ("a"), value := str ("b") })
      [.keep] [] []) rfl (by decide)

/-- Claim C5, counterexample: the spec's own example stream
`{11}` CRLF `hello` CRLF `bye` CRLF `OK Getscript completed` CRLF does not
yield `"hello\r\nbye"`: `"hello\r\nbye"` is 10 bytes, so with `{11}` the
code consumes the trailing CR as payload, eats the LF and the `O` as the
framing pair, and then reads a status line starting with `K`, failing with
a server error. -/
theorem claim_C5_counterexample :
    getScript (strB ("test")) (strB ("\x7b11\x7d") ++ [13, 10] ++ strB ("hello") ++
        [13, 10] ++ strB ("bye") ++ [13, 10] ++ strB ("OK Getscript completed") ++ [13, 10]) =
      .error (.serverError (strB ("K GETSCRIPT COMPLETED"))) ∧
    ¬ getScript (strB ("test")) (strB ("\x7b11\x7d") ++ [13, 10] ++ strB ("hello") ++
        [13, 10] ++ strB ("bye") ++ [13, 10] ++ strB ("OK Getscript completed") ++ [13, 10]) =
      .ok (strB ("hello\r\nbye")) := by
  constructor
  · rfl
  · intro h
    cases h

/-- Claim C5 (amended): when the GETSCRIPT response line is a literal
header `{N}` with N equal to the payload length, `get_script` consumes
exactly the N raw payload bytes (regardless of embedded CR/LF), then the
two framing bytes, then one status line, and returns the payload as the
script text when that line begins with OK; the spec example holds with the
correct count `{10}`. -/
theorem claim_C5 :
    (∀ script ds payload status extra,
      parseUsize ds = some payload.length →
      (10 : Nat) ∉ status →
      (∀ b ∈ status, b < 128) →
      isPrefixB (strB ("OK")) (upperB (trimB (status ++ [13, 10]))) = true →
      getScript script (123 :: (ds ++ 125 :: 13 :: 10 ::
          (payload ++ 13 :: 10 :: (status ++ 13 :: 10 :: extra)))) =
        .ok (utf8Lossy payload)) ∧
    getScript (strB ("test")) (strB ("\x7b10\x7d") ++ [13, 10] ++ strB ("hello") ++
        [13, 10] ++ strB ("bye") ++ [13, 10] ++ strB ("OK Getscript completed") ++ [13, 10]) =
      .ok (strB ("hello\r\nbye")) := by
  constructor
  · intro script ds payload status extra hds hs10 hsA hok
    rw [getScript_literal script ds payload status extra hds hs10 hsA, if_pos hok]
  · rfl

/-- Witness for C5: a three-byte payload containing an embedded CRLF is
returned intact. -/
theorem claim_C5_witness :
    getScript (strB ("s")) (123 :: (strB ("3") ++ 125 :: 13 :: 10 ::
        ([97, 13, 10] ++ 13 :: 10 :: (strB ("OK") ++ 13 :: 10 :: [])))) =
      .ok (utf8Lossy [97, 13, 10]) :=
  claim_C5.1 (strB ("s")) (strB ("3")) [97, 13, 10] (strB ("OK")) [] rfl (by decide)
    (by decide) rfl

/-- Claim C6: `put_script` writes the PUTSCRIPT command with the quoted
name and the inline literal `{len}` (len the byte length of the content,
whose decimal rendering round-trips through the usize parser), with the
raw content following the command line immediately and nothing after it;
the single response line is classified OK/NO/BYE/other. -/
theorem claim_C6 :
    (∀ script content stream, (putScript script content stream).1 =
      strB ("PUTSCRIPT \x22") ++ script ++ strB ("\x22 \x7b") ++ numBytes content.length ++
        strB ("\x7d") ++ [13, 10] ++ content) ∧
    (∀ n, parseUsize (numBytes n) = some n) ∧
    (∀ script content stream l0 r, readLine stream = some (l0, r) →
      isPrefixB (strB ("OK")) (upperB (trimB l0)) = true →
      (putScript script content stream).2 = .ok ()) ∧
    (∀ script content stream l0 r, readLine stream = some (l0, r) →
      isPrefixB (strB ("OK")) (upperB (trimB l0)) = false →
      isPrefixB (strB ("NO")) (upperB (trimB l0)) = true →
      (putScript script content stream).2 = .error (.serverError (trimB l0))) ∧
    (∀ script content stream l0 r, readLine stream = some (l0, r) →
      isPrefixB (strB ("OK")) (upperB (trimB l0)) = false →
      isPrefixB (strB ("NO")) (upperB (trimB l0)) = false →
      isPrefixB (strB ("BYE")) (upperB (trimB l0)) = true →
      (putScript script content stream).2 = .error (.serverError (trimB l0))) ∧
    (∀ script content stream l0 r, readLine stream = some (l0, r) →
      isPrefixB (strB ("OK")) (upperB (trimB l0)) = false →
      isPrefixB (strB ("NO")) (upperB (trimB l0)) = false →
      isPrefixB (strB ("BYE")) (upperB (trimB l0)) = false →
      (putScript script content stream).2 = .error (.invalidResponse (trimB l0))) := by
  refine ⟨?_, parseUsize_numBytes, ?_, ?_, ?_, ?_⟩
  · intro script content stream
    simp [putScript, List.append_assoc]
  · intro script content stream l0 r hr hok
    simp [putScript, hr, hok]
  · intro script content stream l0 r hr hok hno
    simp [putScript, hr, hok, hno]
  · intro script content stream l0 r hr hok hno hbye
    simp [putScript, hr, hok, hno, hbye]
  · intro script content stream l0 r hr hok hno hbye
    simp [putScript, hr, hok, hno, hbye]

/-- Witness for C6: an OK response line classifies as success. -/
theorem claim_C6_witness :
    (putScript (strB ("a")) (strB ("hi")) (strB ("OK Putscript completed") ++ [13, 10])).2 =
      .ok () :=
  claim_C6.2.2.1 (strB ("a")) (strB ("hi")) (strB ("OK Putscript completed") ++ [13, 10])
    (strB ("OK Putscript completed") ++ [13, 10]) [] (by decide) (by decide)

/-- Claim C7: `authenticate` fails immediately (writing nothing) when the
negotiated SASL mechanisms do not contain `PLAIN`; otherwise it writes
exactly the `AUTHENTICATE "PLAIN"` command whose argument is the standard
base64 encoding of `NUL username NUL password`, and classifies the single
response line (OK success, NO credentials rejected, BYE server
disconnected, anything else unexpected). -/
theorem claim_C7 :
    (∀ sasl username password stream, ¬ (strB ("PLAIN")) ∈ sasl →
      authenticate sasl username password stream =
        (none, .error (.authenticationFailed (strB ("SASL PLAIN mechanism not supported"))))) ∧
    (∀ sasl username password stream, (strB ("PLAIN")) ∈ sasl →
      (authenticate sasl username password stream).1 =
        some (strB ("AUTHENTICATE \x22PLAIN\x22 \x22") ++
          base64Encode (0 :: username ++ 0 :: password) ++ strB ("\x22") ++ [13, 10])) ∧
    (∀ sasl username password stream l0 r, (strB ("PLAIN")) ∈ sasl →
      readLine stream = some (l0, r) →
      isPrefixB (strB ("OK")) (upperB (trimB l0)) = true →
      (authenticate sasl username password stream).2 = .ok ()) ∧
    (∀ sasl username password stream l0 r, (strB ("PLAIN")) ∈ sasl →
      readLine stream = some (l0, r) →
      isPrefixB (strB ("OK")) (upperB (trimB l0)) = false →
      isPrefixB (strB ("NO")) (upperB (trimB l0)) = true →
      (authenticate sasl username password stream).2 =
        .error (.authenticationFailed (strB ("Server rejected credentials: ") ++ trimB l0))) ∧
    (∀ sasl username password stream l0 r, (strB ("PLAIN")) ∈ sasl →
      readLine stream = some (l0, r) →
      isPrefixB (strB ("OK")) (upperB (trimB l0)) = false →
      isPrefixB (strB ("NO")) (upperB (trimB l0)) = false →
      isPrefixB (strB ("BYE")) (upperB (trimB l0)) = true →
      (authenticate sasl username password stream).2 =
        .error (.authenticationFailed (strB ("Server disconnected: ") ++ trimB l0))) ∧
    (∀ sasl username password stream l0 r, (strB ("PLAIN")) ∈ sasl →
      readLine stream = some (l0, r) →
      isPrefixB (strB ("OK")) (upperB (trimB l0)) = false →
      isPrefixB (strB ("NO")) (upperB (trimB l0)) = false →
      isPrefixB (strB ("BYE")) (upperB (trimB l0)) = false →
      (authenticate sasl username password stream).2 =
        .error (.authenticationFailed (strB ("Unexpected response: ") ++ trimB l0))) := by
  refine ⟨?_, ?_, ?_, ?_, ?_, ?_⟩
  · intro sasl username password stream hmem
    simp [authenticate, hmem]
  · intro sasl username password stream hmem
    simp [authenticate, hmem, authCommand]
  · intro sasl username password stream l0 r hmem hr hok
    simp [authenticate, hmem, hr, hok]
  · intro sasl username password stream l0 r hmem hr hok hno
    simp [authenticate, hmem, hr, hok, hno]
  · intro sasl username password stream l0 r hmem hr hok hno hbye
    simp [authenticate, hmem, hr, hok, hno, hbye]
  · intro sasl username password stream l0 r hmem hr hok hno hbye
    simp [authenticate, hmem, hr, hok, hno, hbye]

/-- Witness for C7: with an empty SASL list, authentication fails without
writing; with PLAIN advertised, the exact command line is written. -/
theorem claim_C7_witness :
    authenticate [] (strB ("u")) (strB ("p")) [] =
      (none, .error (.authenticationFailed (strB ("SASL PLAIN mechanism not supported")))) ∧
    (authenticate [strB ("PLAIN")] (strB ("u")) (strB ("p")) []).1 =
      some (strB ("AUTHENTICATE \x22PLAIN\x22 \x22") ++
        base64Encode (0 :: strB ("u") ++ 0 :: strB ("p")) ++ strB ("\x22") ++ [13, 10]) := by
  constructor
  · exact claim_C7.1 [] (strB ("u")) (strB ("p")) [] (by decide)
  · exact claim_C7.2.1 [strB ("PLAIN")] (strB ("u")) (strB ("p")) [] (by decide)

/-- Claim C10: `get_script` never fails because of the payload bytes: for
every payload, a `{N}` response (N the payload length) followed by the
framing CRLF and an OK status line yields success, with the payload
decoded as UTF-8 lossily — invalid sequences become U+FFFD (65533) rather
than errors; `check_script`'s literal diagnostic extraction decodes the
literal bytes with the same lossy decoder. -/
theorem claim_C10 :
    (∀ payload : List Nat,
      getScript (strB ("x")) (123 :: (numBytes payload.length ++ 125 :: 13 :: 10 ::
          (payload ++ 13 :: 10 :: (strB ("OK") ++ 13 :: 10 :: [])))) =
        .ok (utf8Lossy payload)) ∧
    utf8Lossy [255] = [65533] ∧
    utf8Lossy [104, 255, 105] = [104, 65533, 105] ∧
    utf8Lossy (strB ("hi")) = strB ("hi") ∧
    (∀ line s deflt length, findIdxQ line = none → line.contains 123 = true →
      parse_literal_length line = some length → length ≤ s.length →
      extractMsg line s deflt = .ok (utf8Lossy (s.take length), s.drop length)) := by
  refine ⟨?_, rfl, rfl, rfl, ?_⟩
  · intro payload
    rw [getScript_literal (strB ("x")) (numBytes payload.length) payload (strB ("OK")) []
      (parseUsize_numBytes payload.length) (by decide) (by decide)]
    rfl
  · intro line s deflt length hfind hcont hpll hlen
    have hmem : (123 : Nat) ∈ line := by
      simpa using hcont
    simp [extractMsg, hfind, hmem, hpll, hlen]

/-- Witness for C10: the literal diagnostic extraction lossily decodes a
payload containing an invalid byte. -/
theorem claim_C10_witness :
    extractMsg [123, 51, 125] [255, 0, 1, 99] [] =
      .ok (utf8Lossy [255, 0, 1], [99]) :=
  claim_C10.2.2.2.2 [123, 51, 125] [255, 0, 1, 99] [] 3 rfl rfl rfl (by decide)
